import Mathlib

/-!
# toxiproxy command-line client (`cli/cli.go`)

A shallow embedding of the decision logic of the client: the field parser
`parseFields`, the direction split `splitToxics` of `inspect`, the toxic
listing `listToxics`, and the command handlers together with the calls they
issue to the administration service.

Conventions of the embedding.

* A Go `string` is a Lean `String`; the byte-wise work of `strings.Split`,
  `strings.SplitN` and `strconv.Atoi` is done on its character list.
* A Go `map[string]V` is an association list `GoMap V` whose keys are pairwise
  distinct; the order of the list stands for the (unspecified) iteration order
  of the map, so that a statement over all lists covers every iteration order.
* `interface{}` values are the type `Value`; the type assertion `v.(string)`
  is `assertString`, which fails (a run-time panic) on anything but a string.
* `fatalf` prints and exits with status 1: a handler that reaches it stops
  with `Exit.fatal`.
-/

namespace Toxiproxy

/-! ## Values and maps -/

/-- The dynamic values held in a `map[string]interface{}`: strings, integers
(what `parseFields` stores), and anything else (tagged, never inspected). -/
inductive Value where
  | str (s : String)
  | int (n : Int)
  | other (tag : Nat)
  deriving DecidableEq, Repr

/-- A Go map with string keys, as an association list. -/
abbrev GoMap (V : Type) := List (String × V)

/-- The keys of a map, in iteration order. -/
def keys {V : Type} (m : GoMap V) : List String := m.map Prod.fst

/-- The indexing expression `m[k]`: `none` when the key is absent. -/
def get? {V : Type} : GoMap V → String → Option V
  | [], _ => none
  | (k1, v1) :: rest, k => if k1 = k then some v1 else get? rest k

/-- The assignment `m[k] = v`: overwrite the entry of `k`, or add one. -/
def set {V : Type} : GoMap V → String → V → GoMap V
  | [], k, v => [(k, v)]
  | (k1, v1) :: rest, k, v => if k1 = k then (k, v) :: rest else (k1, v1) :: set rest k v

/-- The type `toxiproxy.Toxic`, a `map[string]interface{}`. -/
abbrev Toxic := GoMap Value

/-- The type `toxiproxy.Toxics`, a map from toxic name to toxic. -/
abbrev Toxics := GoMap Toxic

/-! ## Library functions used by `parseFields` -/

/-- The call `strings.Split(s, sep)` for a one-byte separator: the pieces
between the occurrences of `sep`; the empty string gives one empty piece. -/
def splitOn (sep : Char) : List Char → List (List Char)
  | [] => [[]]
  | c :: cs =>
    if c = sep then [] :: splitOn sep cs
    else match splitOn sep cs with
      | [] => [[c]]
      | p :: ps => (c :: p) :: ps

/-- The call `strings.SplitN(s, sep, 2)` for a one-byte separator: the text
before and after the first `sep`, or `s` alone when there is none. -/
def splitN2 (sep : Char) : List Char → List (List Char)
  | [] => [[]]
  | c :: cs =>
    if c = sep then [[], cs]
    else match splitN2 sep cs with
      | [a, b] => [c :: a, b]
      | _ => [c :: cs]

/-- The value of a decimal digit, `none` for any other character. -/
def digitVal (c : Char) : Option Nat :=
  if 48 ≤ c.toNat ∧ c.toNat ≤ 57 then some (c.toNat - 48) else none

/-- The digit loop of `strconv`: `n = n*10 + digit`, failing on a non-digit. -/
def parseDigits : List Char → Nat → Option Nat
  | [], acc => some acc
  | c :: cs, acc =>
    match digitVal c with
    | some d => parseDigits cs (acc * 10 + d)
    | none => none

/-- The bit size of Go's `int` (`strconv.IntSize`) on a 64-bit platform. -/
def intSize : Nat := 64

/-- The unsigned part of `strconv.Atoi`: at least one digit, digits only. -/
def parseUnsigned (s : List Char) : Option Nat :=
  match s with
  | [] => none
  | _ :: _ => parseDigits s 0

/-- The call `strconv.Atoi(s)`: an optional sign, then one or more decimal
digits, the value within the range of `int`; `none` stands for a non-nil
`err` (syntax or range). -/
def atoi (s : List Char) : Option Int :=
  match s with
  | [] => none
  | c :: cs =>
    if c = '-' then
      match parseUnsigned cs with
      | some n => if n ≤ 2 ^ (intSize - 1) then some (-(n : Int)) else none
      | none => none
    else if c = '+' then
      match parseUnsigned cs with
      | some n => if n < 2 ^ (intSize - 1) then some (n : Int) else none
      | none => none
    else
      match parseUnsigned (c :: cs) with
      | some n => if n < 2 ^ (intSize - 1) then some (n : Int) else none
      | none => none

/-! ## The field parser -/

deriving instance DecidableEq for Except

/-- The two fatal input errors of `parseFields`. -/
inductive FieldError where
  /-- The message `Fields should be in format key1=value1,key2=value2`. -/
  | format
  /-- The message `Toxic field was expected to be an integer.`. -/
  | notInteger
  deriving DecidableEq, Repr

/-- The loop body and loop of `parseFields` over the comma-separated pieces. -/
def parseLoop : List (List Char) → Toxic → Except FieldError Toxic
  | [], parsed => .ok parsed
  | keyValue :: rest, parsed =>
    match splitN2 '=' keyValue with
    | [k, v] =>
      match atoi v with
      | some value => parseLoop rest (set parsed (String.mk k) (Value.int value))
      | none => .error FieldError.notInteger
    | _ => .error FieldError.format

/-- The function `parseFields`: split on commas, each piece on its first `=`,
convert the value with `Atoi`, and store it under the key. -/
def parseFields (raw : String) : Except FieldError Toxic :=
  parseLoop (splitOn ',' raw.data) []



/-! ## Specification-side vocabulary for field strings -/

/-- The text of a segment before its first `=`. -/
def keyText (seg : List Char) : List Char := seg.takeWhile (fun c => c != '=')

/-- The text of a segment after its first `=`. -/
def valueText (seg : List Char) : List Char := (seg.dropWhile (fun c => c != '=')).drop 1

/-- The digits of a literal: the text without a leading sign. -/
def unsignedText : List Char → List Char
  | [] => []
  | c :: cs => if c = '-' ∨ c = '+' then cs else c :: cs

/-- A signed base-10 integer literal: an optional sign, then one or more
decimal digits and nothing else. -/
def isIntLiteral (v : List Char) : Bool :=
  !(unsignedText v).isEmpty && (unsignedText v).all Char.isDigit

/-- The natural number written by a string of decimal digits. -/
def digitsValue (ds : List Char) : Nat :=
  Nat.ofDigits 10 (ds.reverse.map (fun c => c.toNat - 48))

/-- The integer written by a signed base-10 literal. -/
def literalValue (v : List Char) : Int :=
  match v with
  | [] => 0
  | c :: _ => if c = '-' then -(digitsValue (unsignedText v) : Int) else digitsValue (unsignedText v)

/-- The range of Go's `int` on a 64-bit platform. -/
def fitsInt (n : Int) : Bool := decide (-(2 : Int) ^ 63 ≤ n) && decide (n < (2 : Int) ^ 63)

/-- The comma-separated segments of a field string. -/
def segments (raw : String) : List (List Char) := splitOn ',' raw.data

/-- A segment of the form `key=value` whose value is a signed base-10 integer
literal. -/
def literalSegment (seg : List Char) : Bool :=
  decide ('=' ∈ seg) && isIntLiteral (valueText seg)

/-- A segment of the form `key=value` whose value is a signed base-10 integer
literal within the range of `int`. -/
def goodSegment (seg : List Char) : Bool :=
  literalSegment seg && fitsInt (literalValue (valueText seg))

/-- The key and the integer written in each segment, in the order of the
string. -/
def fieldPairs (raw : String) : List (String × Int) :=
  (segments raw).map (fun seg => (String.mk (keyText seg), literalValue (valueText seg)))

/-- The integer of the last pair with key `k`, if there is one. -/
def lastValue (ps : List (String × Int)) (k : String) : Option Int :=
  (ps.reverse.find? (fun p => decide (p.1 = k))).map Prod.snd

/-- The store `parsed[key] = value` of one well-formed segment. -/
def storeField (parsed : Toxic) (seg : List Char) : Toxic :=
  set parsed (String.mk (keyText seg)) (Value.int (literalValue (valueText seg)))

/-! ## The administration service and the command context -/

/-- The type `toxiproxy.Proxy` of the client library. -/
structure Proxy where
  name : String
  listen : String
  upstream : String
  enabled : Bool
  activeToxics : Toxics
  deriving DecidableEq, Repr

/-- What a handler reads of `cli.Context`: the first positional argument
`c.Args().First()`, the string flags `c.String(name)` and the boolean flags
`c.Bool(name)`. -/
structure Context where
  first : String
  string : String → String
  bool : String → Bool

/-- A request to the administration service; the methods of a proxy object
(`Save`, `Delete`, `AddToxic`, `UpdateToxic`, `RemoveToxic`) carry their
receiver. -/
inductive Call where
  | proxies
  | proxy (name : String)
  | createProxy (name listen upstream : String)
  | save (p : Proxy)
  | delete (p : Proxy)
  | addToxic (p : Proxy) (name typ stream : String) (fields : Toxic)
  | updateToxic (p : Proxy) (name : String) (fields : Toxic)
  | removeToxic (p : Proxy) (name : String)
  deriving DecidableEq, Repr

/-- The client library `toxiproxy.Client`, a parameter of the handlers: each
method answers from the state of the service with a result or an error
message, and a new state. -/
structure Client (σ : Type) where
  proxies : σ → Except String (GoMap Proxy) × σ
  proxy : String → σ → Except String Proxy × σ
  createProxy : String → String → String → σ → Except String Proxy × σ
  save : Proxy → σ → Except String Unit × σ
  delete : Proxy → σ → Except String Unit × σ
  addToxic : Proxy → String → String → String → Toxic → σ → Except String Toxic × σ
  updateToxic : Proxy → String → Toxic → σ → Except String Toxic × σ
  removeToxic : Proxy → String → σ → Except String Unit × σ

/-- The two hints printed by `hint`. -/
inductive Hint where
  | createProxy
  | inspectProxy
  | addToxic
  deriving DecidableEq, Repr

/-- What the handlers print, one constructor for each `Printf` of the source
with its arguments (colour codes left out). -/
inductive Out where
  /-- `fatalf`: proxy name is required as the first argument. -/
  | proxyNameRequired
  /-- `fatalf` of `getArgOrFail`: required argument was empty. -/
  | requiredArgEmpty (name : String)
  /-- `fatalf` of `parseFields`. -/
  | badFields (e : FieldError)
  | failedRetrieveProxies (err : String)
  | failedRetrieveProxy (proxyName err : String)
  | failedToggle (proxyName err : String)
  | failedCreate (err : String)
  | failedDelete (err : String)
  | failedAddToxic (err : String)
  | failedUpdateToxic (err : String)
  | failedRemoveToxic (err : String)
  /-- The column titles of `list` (on standard error). -/
  | listHeader
  /-- The rule under the column titles (on standard error). -/
  | listRule
  | noProxies
  | hint (h : Hint)
  /-- One row of `list`. -/
  | proxyRow (listen upstream name : String) (enabled : Bool) (numToxics : String)
  | newline
  | proxyName (enabled : Bool) (name : String)
  | proxyAddr (listen upstream : String)
  | noToxics
  /-- The line `no <stream> toxics` of `listToxics`. -/
  | noStreamToxics (stream : String)
  /-- The heading `<stream> toxics:` of `listToxics`. -/
  | toxicsHeader (stream : String)
  /-- The name that opens the line of a toxic. -/
  | toxicName (name : String)
  /-- One `property=value` of a toxic. -/
  | toxicProp (property : String) (value : Value)
  | toggled (proxyName : String) (enabled : Bool)
  | created (proxyName : String)
  | deleted (proxyName : String)
  | added (stream typ toxicName proxyName : String)
  | updated (toxicName proxyName : String)
  | removed (toxicName proxyName : String)
  deriving DecidableEq, Repr

/-- How a handler ends: it returns, `fatalf` exits with status 1, or a failed
type assertion or nil dereference panics. -/
inductive Exit where
  | ok
  | fatal
  | panic
  deriving DecidableEq, Repr

/-- The state threaded through a handler: the state of the service, the calls
issued so far and the output so far. -/
structure World (σ : Type) where
  st : σ
  calls : List Call
  out : List Out

/-- The result of a step: go on with a value, or stop the process. -/
inductive Step (σ α : Type) where
  | next (a : α) (w : World σ)
  | stop (e : Exit) (w : World σ)

/-- A command: a step from a world. -/
def Cmd (σ α : Type) : Type := World σ → Step σ α

/-- Sequencing of commands; a stop skips what follows. -/
def Cmd.bind {σ α β : Type} (x : Cmd σ α) (f : α → Cmd σ β) : Cmd σ β :=
  fun w => match x w with
    | .next a w1 => f a w1
    | .stop e w1 => .stop e w1

instance {σ : Type} : Monad (Cmd σ) where
  pure a := fun w => .next a w
  bind := Cmd.bind

/-- A `Printf` (or `Fprintf`): append to the output. -/
def print {σ : Type} (o : Out) : Cmd σ Unit :=
  fun w => .next () { w with out := w.out ++ [o] }

/-- The function `fatalf`: print the message and exit with status 1. -/
def fatalf {σ α : Type} (o : Out) : Cmd σ α :=
  fun w => .stop Exit.fatal { w with out := w.out ++ [o] }

/-- A run-time panic. -/
def goPanic {σ α : Type} : Cmd σ α :=
  fun w => .stop Exit.panic w

/-- Issue a request: log it, and take the answer and the new service state. -/
def request {σ α : Type} (c : Call) (f : σ → Except String α × σ) :
    Cmd σ (Except String α) :=
  fun w => .next (f w.st).1 { w with st := (f w.st).2, calls := w.calls ++ [c] }

/-- The type assertion `v.(string)` on the result of a map lookup: `none`
(a panic) unless the value is present and a string. -/
def assertString : Option Value → Option String
  | some (Value.str s) => some s
  | _ => none

/-- The outcome of a whole invocation. -/
structure Run (σ : Type) where
  st : σ
  calls : List Call
  out : List Out
  exit : Exit

/-- Run a handler from a service state, with nothing called or printed yet. -/
def run {σ : Type} (m : Cmd σ Unit) (s : σ) : Run σ :=
  match m ⟨s, [], []⟩ with
  | .next _ w => ⟨w.st, w.calls, w.out, Exit.ok⟩
  | .stop e w => ⟨w.st, w.calls, w.out, e⟩

/-! ## The handlers -/

/-- The function `getArgOrFail`: the string flag, fatal when it is empty. -/
def getArgOrFail {σ : Type} (c : Context) (name : String) : Cmd σ String :=
  let arg := c.string name
  if arg = "" then fatalf (Out.requiredArgEmpty name) else pure arg

/-- The call of `parseFields` inside a handler: its `fatalf` ends the process. -/
def parseFieldsCmd {σ : Type} (raw : String) : Cmd σ Toxic :=
  match parseFields raw with
  | .ok fields => pure fields
  | .error e => fatalf (Out.badFields e)

/-- The comparison `a < b` of Go strings: lexicographic, character by
character, a proper initial part first. -/
def strLt : List Char → List Char → Bool
  | [], [] => false
  | [], _ :: _ => true
  | _ :: _, [] => false
  | a :: as, b :: bs => if a < b then true else if b < a then false else strLt as bs

/-- The call `sort.Strings`: the names in ascending order. -/
def sortStrings (names : List String) : List String :=
  names.insertionSort (fun a b => strLt b.data a.data = false)

/-- The call `strconv.Itoa` on a length. -/
def itoa (n : Nat) : String := toString n

/-- The body of the row loop of `list`: the count of toxics, `None` for zero,
and the row printed for the proxy. -/
def rowOf (proxy : Proxy) : Out :=
  let numToxics := itoa proxy.activeToxics.length
  let numToxics := if numToxics = "0" then "None" else numToxics
  Out.proxyRow proxy.listen proxy.upstream proxy.name proxy.enabled numToxics

/-- The row loop of `list`: look each name up and print its row. -/
def listRows {σ : Type} (proxies : GoMap Proxy) : List String → Cmd σ Unit
  | [] => pure ()
  | proxyName :: rest =>
    match get? proxies proxyName with
    | none => goPanic
    | some proxy => do
      print (rowOf proxy)
      listRows proxies rest

/-- The handler `list`. -/
def list {σ : Type} (t : Client σ) (_c : Context) : Cmd σ Unit := do
  match ← request Call.proxies t.proxies with
  | .error err => fatalf (Out.failedRetrieveProxies err)
  | .ok proxies =>
    let proxyNames := sortStrings (keys proxies)
    print Out.listHeader
    print Out.listRule
    if proxyNames.length = 0 then
      print Out.noProxies
      print (Out.hint Hint.createProxy)
    else
      listRows proxies proxyNames
      print Out.newline
      print (Out.hint Hint.inspectProxy)

/-- The loop of the closure `splitToxics` of `inspect`, over the toxics still
to visit; `none` is the panic of the type assertion on `stream`. -/
def splitLoop : Toxics → Toxics → Toxics → Option (Toxics × Toxics)
  | [], upstream, downstream => some (upstream, downstream)
  | (k, toxic) :: rest, upstream, downstream =>
    match assertString (get? toxic "stream") with
    | none => none
    | some stream =>
      if stream = "upstream" then splitLoop rest (set upstream k toxic) downstream
      else splitLoop rest upstream (set downstream k toxic)

/-- The closure `splitToxics` of `inspect`. -/
def splitToxics (toxics : Toxics) : Option (Toxics × Toxics) :=
  splitLoop toxics [] []

/-- The inner loop of `listToxics`: the properties of one toxic. -/
def listProps {σ : Type} : Toxic → Cmd σ Unit
  | [] => pure ()
  | (property, value) :: rest => do
    print (Out.toxicProp property value)
    listProps rest

/-- The loop of `listToxics`: the toxics whose stream is the listed one. -/
def listToxicsLoop {σ : Type} (stream : String) : Toxics → Cmd σ Unit
  | [] => pure ()
  | (name, toxic) :: rest =>
    match assertString (get? toxic "stream") with
    | none => goPanic
    | some s =>
      if s ≠ stream then listToxicsLoop stream rest
      else do
        print (Out.toxicName name)
        listProps toxic
        print Out.newline
        listToxicsLoop stream rest

/-- The function `listToxics`. -/
def listToxics {σ : Type} (toxics : Toxics) (stream : String) : Cmd σ Unit :=
  if toxics.length = 0 then print (Out.noStreamToxics stream)
  else do
    print (Out.toxicsHeader stream)
    listToxicsLoop stream toxics

/-- The handler `inspect`. -/
def inspect {σ : Type} (t : Client σ) (c : Context) : Cmd σ Unit := do
  let proxyName := c.first
  if proxyName = "" then fatalf Out.proxyNameRequired
  else
    match ← request (Call.proxy proxyName) (t.proxy proxyName) with
    | .error err => fatalf (Out.failedRetrieveProxy proxyName err)
    | .ok proxy =>
      print (Out.proxyName proxy.enabled proxy.name)
      print (Out.proxyAddr proxy.listen proxy.upstream)
      if proxy.activeToxics.length = 0 then
        print Out.noToxics
      else
        match splitToxics proxy.activeToxics with
        | none => goPanic
        | some (up, down) =>
          listToxics up "upstream"
          print Out.newline
          listToxics down "downstream"
      print Out.newline
      print (Out.hint Hint.addToxic)

/-- The handler `toggle`. -/
def toggle {σ : Type} (t : Client σ) (c : Context) : Cmd σ Unit := do
  let proxyName := c.first
  if proxyName = "" then fatalf Out.proxyNameRequired
  else
    match ← request (Call.proxy proxyName) (t.proxy proxyName) with
    | .error err => fatalf (Out.failedRetrieveProxy proxyName err)
    | .ok proxy =>
      let proxy := { proxy with enabled := !proxy.enabled }
      match ← request (Call.save proxy) (t.save proxy) with
      | .error err => fatalf (Out.failedToggle proxyName err)
      | .ok _ => print (Out.toggled proxyName proxy.enabled)

/-- The handler `create`. -/
def create {σ : Type} (t : Client σ) (c : Context) : Cmd σ Unit := do
  let proxyName := c.first
  if proxyName = "" then fatalf Out.proxyNameRequired
  else
    let listen ← getArgOrFail c "listen"
    let upstream ← getArgOrFail c "upstream"
    match ← request (Call.createProxy proxyName listen upstream)
        (t.createProxy proxyName listen upstream) with
    | .error err => fatalf (Out.failedCreate err)
    | .ok _ => print (Out.created proxyName)

/-- The handler `delete`. -/
def delete {σ : Type} (t : Client σ) (c : Context) : Cmd σ Unit := do
  let proxyName := c.first
  if proxyName = "" then fatalf Out.proxyNameRequired
  else
    match ← request (Call.proxy proxyName) (t.proxy proxyName) with
    | .error err => fatalf (Out.failedRetrieveProxy proxyName err)
    | .ok p =>
      match ← request (Call.delete p) (t.delete p) with
      | .error err => fatalf (Out.failedDelete err)
      | .ok _ => print (Out.deleted proxyName)

/-- The closure `addToxic(stream)` of the handler `addToxic`: one `AddToxic`
request with the current `toxicName`; it assigns the name of the returned
toxic to `toxicName`, which is the value returned here. -/
def addToxicTo {σ : Type} (t : Client σ) (p : Proxy) (proxyName toxicName toxicType : String)
    (fields : Toxic) (stream : String) : Cmd σ String := do
  match ← request (Call.addToxic p toxicName toxicType stream fields)
      (t.addToxic p toxicName toxicType stream fields) with
  | .error err => fatalf (Out.failedAddToxic err)
  | .ok tox =>
    match assertString (get? tox "name") with
    | none => goPanic
    | some toxicName => do
      print (Out.added stream toxicType toxicName proxyName)
      pure toxicName

/-- The handler `addToxic`. -/
def addToxic {σ : Type} (t : Client σ) (c : Context) : Cmd σ Unit := do
  let proxyName := c.first
  if proxyName = "" then fatalf Out.proxyNameRequired
  else
    let toxicName := c.string "toxicName"
    let toxicType ← getArgOrFail c "type"
    let toxicFields ← getArgOrFail c "fields"
    let upstream := c.bool "upstream"
    let downstream := c.bool "downstream"
    let fields ← parseFieldsCmd toxicFields
    match ← request (Call.proxy proxyName) (t.proxy proxyName) with
    | .error err => fatalf (Out.failedRetrieveProxy proxyName err)
    | .ok p =>
      let toxicName ←
        if upstream then addToxicTo t p proxyName toxicName toxicType fields "upstream"
        else pure toxicName
      if downstream || (!downstream && !upstream) then
        let _ ← addToxicTo t p proxyName toxicName toxicType fields "downstream"
        pure ()
      else pure ()

/-- The handler `updateToxic`. -/
def updateToxic {σ : Type} (t : Client σ) (c : Context) : Cmd σ Unit := do
  let proxyName := c.first
  if proxyName = "" then fatalf Out.proxyNameRequired
  else
    let toxicName ← getArgOrFail c "toxicName"
    let toxicFields ← getArgOrFail c "fields"
    let fields ← parseFieldsCmd toxicFields
    match ← request (Call.proxy proxyName) (t.proxy proxyName) with
    | .error err => fatalf (Out.failedRetrieveProxy proxyName err)
    | .ok p =>
      match ← request (Call.updateToxic p toxicName fields)
          (t.updateToxic p toxicName fields) with
      | .error err => fatalf (Out.failedUpdateToxic err)
      | .ok _ => print (Out.updated toxicName proxyName)

/-- The handler `removeToxic`. -/
def removeToxic {σ : Type} (t : Client σ) (c : Context) : Cmd σ Unit := do
  let proxyName := c.first
  if proxyName = "" then fatalf Out.proxyNameRequired
  else
    let toxicName ← getArgOrFail c "toxicName"
    match ← request (Call.proxy proxyName) (t.proxy proxyName) with
    | .error err => fatalf (Out.failedRetrieveProxy proxyName err)
    | .ok p =>
      match ← request (Call.removeToxic p toxicName) (t.removeToxic p toxicName) with
      | .error err => fatalf (Out.failedRemoveToxic err)
      | .ok _ => print (Out.removed toxicName proxyName)

/-! ## Specification-side vocabulary for toxics and output -/

/-- The toxic carries a string-valued `stream` field. -/
def hasStream (toxic : Toxic) : Bool := (assertString (get? toxic "stream")).isSome

/-- The `stream` field of the toxic is exactly the string `s`. -/
def streamIs (s : String) (toxic : Toxic) : Bool :=
  decide (get? toxic "stream" = some (Value.str s))

/-! ## A small service for examples -/

/-- A proxy of the example service. -/
def demoProxy : Proxy :=
  { name := "redis", listen := "127.0.0.1:26379", upstream := "127.0.0.1:6379",
    enabled := true, activeToxics := [] }

/-- An example service on which every request succeeds; its state counts the
requests. A toxic added without a name is named `<type>_<stream>`. -/
def demoClient : Client Nat where
  proxies := fun s =>
    (.ok [("redis", demoProxy), ("mysql", { demoProxy with name := "mysql" })], s + 1)
  proxy := fun name s => (.ok { demoProxy with name := name }, s + 1)
  createProxy := fun name listen upstream s =>
    (.ok { name := name, listen := listen, upstream := upstream, enabled := true,
           activeToxics := [] }, s + 1)
  save := fun _ s => (.ok (), s + 1)
  delete := fun _ s => (.ok (), s + 1)
  addToxic := fun _ name typ stream fields s =>
    (.ok (set (set (set fields "name"
      (Value.str (if name = "" then typ ++ "_" ++ stream else name)))
      "type" (Value.str typ)) "stream" (Value.str stream)), s + 1)
  updateToxic := fun _ name fields s => (.ok (set fields "name" (Value.str name)), s + 1)
  removeToxic := fun _ _ s => (.ok (), s + 1)

/-- An example invocation of `toxic add redis -t latency -f latency=100` with
the given toxic name and direction flags. -/
def addContext (toxicName : String) (upstream downstream : Bool) : Context :=
  { first := "redis",
    string := fun name =>
      if name = "type" then "latency"
      else if name = "fields" then "latency=100"
      else if name = "toxicName" then toxicName
      else "",
    bool := fun name =>
      if name = "upstream" then upstream
      else if name = "downstream" then downstream
      else false }

/-- The commands of the table in `main` and of its `toxic` subcommands. -/
inductive Command where
  | list
  | inspect
  | toggle
  | create
  | delete
  | toxicAdd
  | toxicUpdate
  | toxicRemove
  deriving DecidableEq, Repr

/-- The action bound to each command in `main` (through `withToxi`). -/
def dispatch {σ : Type} (cmd : Command) (t : Client σ) (c : Context) : Cmd σ Unit :=
  match cmd with
  | .list => list t c
  | .inspect => inspect t c
  | .toggle => toggle t c
  | .create => create t c
  | .delete => delete t c
  | .toxicAdd => addToxic t c
  | .toxicUpdate => updateToxic t c
  | .toxicRemove => removeToxic t c

/-- A required argument of the command is empty: the proxy name for every
command but `list`, and the required flags of the command. -/
def missingArgument (cmd : Command) (c : Context) : Prop :=
  match cmd with
  | .list => False
  | .inspect => c.first = ""
  | .toggle => c.first = ""
  | .create => c.first = "" ∨ c.string "listen" = "" ∨ c.string "upstream" = ""
  | .delete => c.first = ""
  | .toxicAdd => c.first = "" ∨ c.string "type" = "" ∨ c.string "fields" = ""
  | .toxicUpdate => c.first = "" ∨ c.string "toxicName" = "" ∨ c.string "fields" = ""
  | .toxicRemove => c.first = "" ∨ c.string "toxicName" = ""

/-- The command takes a fields string and the one given fails to parse. -/
def fieldsRejected (cmd : Command) (c : Context) : Prop :=
  (cmd = Command.toxicAdd ∨ cmd = Command.toxicUpdate) ∧
    ∃ e, parseFields (c.string "fields") = .error e

/-- An example invocation of `toxic add redis -t latency` with the given
fields string. -/
def fieldsContext (fields : String) : Context :=
  { first := "redis",
    string := fun name =>
      if name = "type" then "latency" else if name = "fields" then fields else "",
    bool := fun _ => false }

/-- The output is a row of the table of `list`. -/
def isRow : Out → Bool
  | Out.proxyRow _ _ _ _ _ => true
  | _ => false

/-- The lines that `listToxics` prints for the toxics of a listing: for each
toxic whose stream is the listed one, its name, its properties and a newline. -/
def toxicLines (stream : String) : Toxics → List Out
  | [] => []
  | (name, toxic) :: rest =>
    if streamIs stream toxic then
      Out.toxicName name :: (toxic.map (fun e => Out.toxicProp e.1 e.2) ++
        Out.newline :: toxicLines stream rest)
    else toxicLines stream rest

/-- The toxic names printed in an output, each with the heading of the listing
it stands under: a heading `<stream> toxics:` opens the listing of `stream`,
a line `no <stream> toxics` stands for an empty listing. -/
def namesUnder : Option String → List Out → List (Option String × String)
  | _, [] => []
  | _, Out.toxicsHeader s :: rest => namesUnder (some s) rest
  | _, Out.noStreamToxics _ :: rest => namesUnder none rest
  | cur, Out.toxicName n :: rest => (cur, n) :: namesUnder cur rest
  | cur, _ :: rest => namesUnder cur rest

/-- An example proxy with an upstream toxic, a downstream toxic and a toxic
whose stream is neither. -/
def toxicProxy : Proxy :=
  { name := "redis", listen := "127.0.0.1:26379", upstream := "127.0.0.1:6379",
    enabled := true,
    activeToxics :=
      [("a", [("stream", Value.str "upstream")]),
       ("b", [("stream", Value.str "downstream")]),
       ("c", [("stream", Value.str "sideways")])] }

/-- An example service that answers every fetch with `toxicProxy`. -/
def toxicClient : Client Nat :=
  { demoClient with proxy := fun _ s => (.ok toxicProxy, s + 1) }

/-! ## Lemmas on the library functions -/

theorem digitVal_eq (c : Char) :
    digitVal c = if c.isDigit then some (c.toNat - 48) else none := by
  unfold digitVal Char.isDigit
  by_cases h : 48 ≤ c.toNat ∧ c.toNat ≤ 57
  · have h1 : c.val ≥ 48 := by
      show (48 : UInt32) ≤ c.val
      rw [UInt32.le_def]; exact h.1
    have h2 : c.val ≤ 57 := by
      rw [UInt32.le_def]; exact h.2
    simp [h, h1, h2]
  · have h3 : ¬ (c.val ≥ 48 ∧ c.val ≤ 57) := by
      rintro ⟨h1, h2⟩
      exact h ⟨UInt32.le_def.1 h1, UInt32.le_def.1 h2⟩
    simp [h, h3]

theorem parseDigits_eq (cs : List Char) (acc : Nat) :
    parseDigits cs acc =
      if cs.all Char.isDigit then some (acc * 10 ^ cs.length + digitsValue cs) else none := by
  induction cs generalizing acc with
  | nil => simp [parseDigits, digitsValue]
  | cons c cs ih =>
    rw [parseDigits, digitVal_eq]
    by_cases hc : c.isDigit
    · simp only [hc, if_true, ih, List.all_cons, Bool.true_and]
      by_cases hcs : cs.all Char.isDigit
      · simp only [hcs, if_true, digitsValue, List.reverse_cons, List.map_append,
          List.map_cons, List.map_nil, Nat.ofDigits_append, List.length_map,
          List.length_reverse, Nat.ofDigits_singleton, List.length_cons]
        congr 1; ring
      · simp [hcs]
    · simp [hc]

theorem parseUnsigned_eq (s : List Char) :
    parseUnsigned s =
      if !s.isEmpty && s.all Char.isDigit then some (digitsValue s) else none := by
  cases s with
  | nil => simp [parseUnsigned]
  | cons c cs =>
    simp only [parseUnsigned, parseDigits_eq, Nat.zero_mul, Nat.zero_add, List.isEmpty_cons,
      Bool.not_false, Bool.true_and]

theorem fitsInt_neg (n : Nat) : fitsInt (-(n : Int)) = decide (n ≤ 2 ^ (intSize - 1)) := by
  have e : (2 : Nat) ^ (intSize - 1) = 9223372036854775808 := by decide
  unfold fitsInt
  rw [e, Bool.eq_iff_iff]
  simp only [Bool.and_eq_true, decide_eq_true_eq]
  norm_num
  omega

theorem fitsInt_pos (n : Nat) : fitsInt (n : Int) = decide (n < 2 ^ (intSize - 1)) := by
  have e : (2 : Nat) ^ (intSize - 1) = 9223372036854775808 := by decide
  unfold fitsInt
  rw [e, Bool.eq_iff_iff]
  simp only [Bool.and_eq_true, decide_eq_true_eq]
  norm_num
  omega

theorem atoi_eq (v : List Char) :
    atoi v = if isIntLiteral v && fitsInt (literalValue v) then some (literalValue v)
      else none := by
  cases v with
  | nil => simp [atoi, isIntLiteral, unsignedText]
  | cons c cs =>
    by_cases hm : c = '-'
    · subst hm
      simp only [atoi, if_true, parseUnsigned_eq, isIntLiteral, unsignedText, true_or,
        literalValue, fitsInt_neg]
      by_cases hd : (!cs.isEmpty && cs.all Char.isDigit) = true
      · by_cases hr : digitsValue cs ≤ 2 ^ (intSize - 1) <;> simp [hd, hr]
      · simp [hd]
    · by_cases hp : c = '+'
      · subst hp
        simp only [atoi, if_true, parseUnsigned_eq, isIntLiteral, unsignedText, or_true,
          literalValue, fitsInt_pos, show ¬ ('+' = '-') by decide, if_false]
        by_cases hd : (!cs.isEmpty && cs.all Char.isDigit) = true
        · by_cases hr : digitsValue cs < 2 ^ (intSize - 1) <;> simp [hd, hr]
        · simp [hd]
      · simp only [atoi, hm, hp, if_false, parseUnsigned_eq, isIntLiteral, unsignedText,
          or_self, literalValue, fitsInt_pos]
        generalize (c :: cs).all Char.isDigit = b
        generalize digitsValue (c :: cs) = n
        cases b <;> by_cases hr : n < 2 ^ (intSize - 1) <;> simp [hr]
theorem splitOn_ne_nil (sep : Char) (s : List Char) : splitOn sep s ≠ [] := by
  cases s with
  | nil => simp [splitOn]
  | cons c cs =>
    unfold splitOn
    split
    · simp
    · split <;> simp

/-- The pieces of `splitOn` hold no separator, and joining them with the
separator gives the string back. -/
theorem splitOn_spec (sep : Char) (s : List Char) :
    (∀ p ∈ splitOn sep s, sep ∉ p) ∧ List.intercalate [sep] (splitOn sep s) = s := by
  induction s with
  | nil => simp [splitOn, List.intercalate]
  | cons c cs ih =>
    obtain ⟨ih1, ih2⟩ := ih
    unfold splitOn
    by_cases h : c = sep
    · subst h
      simp only [if_true]
      refine ⟨?_, ?_⟩
      · intro p hp
        rcases List.mem_cons.1 hp with rfl | hp
        · simp
        · exact ih1 p hp
      · cases hs : splitOn c cs with
        | nil => exact absurd hs (splitOn_ne_nil _ _)
        | cons p ps =>
          rw [hs] at ih2
          rw [← ih2]
          simp [List.intercalate, List.intersperse]
    · simp only [h, if_false]
      cases hs : splitOn sep cs with
      | nil => exact absurd hs (splitOn_ne_nil _ _)
      | cons p ps =>
        rw [hs] at ih1 ih2
        refine ⟨?_, ?_⟩
        · intro q hq
          rcases List.mem_cons.1 hq with rfl | hq
          · intro hmem
            rcases List.mem_cons.1 hmem with e | e
            · exact h e.symm
            · exact ih1 p (List.mem_cons_self _ _) e
          · exact ih1 q (List.mem_cons_of_mem _ hq)
        · rw [← ih2]
          cases ps <;> simp [List.intercalate, List.intersperse]

theorem splitN2_eq (seg : List Char) :
    splitN2 '=' seg = if '=' ∈ seg then [keyText seg, valueText seg] else [seg] := by
  induction seg with
  | nil => simp [splitN2]
  | cons c cs ih =>
    unfold splitN2
    by_cases h : c = '='
    · subst h
      simp [keyText, valueText]
    · have h2 : ¬ ('=' = c) := fun e => h e.symm
      simp only [h, if_false, ih, List.mem_cons, h2, false_or]
      by_cases hm : '=' ∈ cs
      · simp [hm, keyText, valueText, h]
      · simp [hm]

theorem get?_set_self {V : Type} (m : GoMap V) (k : String) (v : V) :
    get? (set m k v) k = some v := by
  induction m with
  | nil => simp [set, get?]
  | cons p rest ih =>
    obtain ⟨k1, v1⟩ := p
    by_cases h : k1 = k
    · simp [set, get?, h]
    · simp [set, get?, h, ih]

theorem get?_set_ne {V : Type} (m : GoMap V) (k k2 : String) (v : V) (h : k ≠ k2) :
    get? (set m k v) k2 = get? m k2 := by
  induction m with
  | nil => simp [set, get?, h]
  | cons p rest ih =>
    obtain ⟨k1, v1⟩ := p
    by_cases h1 : k1 = k
    · subst h1
      simp [set, get?, h]
    · by_cases h2 : k1 = k2
      · subst h2
        simp [set, get?, h1]
      · simp [set, get?, h1, h2, ih]

theorem mem_keys_set {V : Type} (m : GoMap V) (k k2 : String) (v : V) :
    k2 ∈ keys (set m k v) ↔ k2 = k ∨ k2 ∈ keys m := by
  induction m with
  | nil => simp [set, keys]
  | cons p rest ih =>
    obtain ⟨k1, v1⟩ := p
    by_cases h1 : k1 = k
    · subst h1
      simp [set, keys]
    · simp only [set, h1, if_false, keys, List.map_cons, List.mem_cons] at ih ⊢
      rw [ih]
      tauto

theorem nodup_keys_set {V : Type} (m : GoMap V) (k : String) (v : V)
    (h : (keys m).Nodup) : (keys (set m k v)).Nodup := by
  induction m with
  | nil => simp [set, keys]
  | cons p rest ih =>
    obtain ⟨k1, v1⟩ := p
    have hn : k1 ∉ keys rest ∧ (keys rest).Nodup := by
      simpa [keys] using h
    by_cases h1 : k1 = k
    · subst h1
      simpa [set, keys] using h
    · have := ih hn.2
      have hk : k1 ∉ keys (set rest k v) := by
        rw [mem_keys_set]
        rintro (e | e)
        · exact h1 e
        · exact hn.1 e
      simp only [set, h1, if_false, keys, List.map_cons, List.nodup_cons]
      exact ⟨hk, this⟩

theorem mem_keys_iff_get? {V : Type} (m : GoMap V) (k : String) :
    k ∈ keys m ↔ ∃ v, get? m k = some v := by
  induction m with
  | nil => simp [keys, get?]
  | cons p rest ih =>
    obtain ⟨k1, v1⟩ := p
    by_cases h : k1 = k
    · simp [keys, get?, h]
    · have h2 : ¬ (k = k1) := fun e => h e.symm
      simp only [keys, List.map_cons, List.mem_cons, h2, false_or, get?, h, if_false] at ih ⊢
      exact ih
/-! ## The field parser: outcome of the loop -/

theorem parseLoop_eq (segs : List (List Char)) (parsed : Toxic) :
    parseLoop segs parsed =
      match segs.find? (fun s => !goodSegment s) with
      | some seg => .error (if '=' ∈ seg then FieldError.notInteger else FieldError.format)
      | none => .ok (segs.foldl storeField parsed) := by
  induction segs generalizing parsed with
  | nil => simp [parseLoop]
  | cons seg rest ih =>
    rw [parseLoop, splitN2_eq]
    by_cases he : '=' ∈ seg
    · simp only [he, if_true, atoi_eq]
      by_cases hg : (isIntLiteral (valueText seg) && fitsInt (literalValue (valueText seg))) = true
      · have hgood : goodSegment seg = true := by
          simp only [Bool.and_eq_true] at hg
          simp [goodSegment, literalSegment, he, hg.1, hg.2]
        simp only [hg, if_true, ih, List.find?_cons, hgood, Bool.not_true, List.foldl_cons,
          storeField]
      · have hbad : goodSegment seg = false := by
          simp only [goodSegment, literalSegment, he, decide_True, Bool.true_and]
          simpa using hg
        simp [hg, List.find?_cons, hbad, he]
    · have hbad : goodSegment seg = false := by
        simp [goodSegment, literalSegment, he]
      simp [he, List.find?_cons, hbad]

theorem lastValue_cons (p : String × Int) (ps : List (String × Int)) (k : String) :
    lastValue (p :: ps) k =
      match lastValue ps k with
      | some n => some n
      | none => if p.1 = k then some p.2 else none := by
  unfold lastValue
  rw [List.reverse_cons, List.find?_append]
  cases h : List.find? (fun p => decide (p.1 = k)) ps.reverse with
  | some q => simp
  | none =>
    by_cases hk : p.1 = k <;> simp [List.find?_cons, hk]

theorem get?_foldl_storeField (segs : List (List Char)) (parsed : Toxic) (k : String) :
    get? (segs.foldl storeField parsed) k =
      match lastValue (segs.map (fun seg =>
          (String.mk (keyText seg), literalValue (valueText seg)))) k with
      | some n => some (Value.int n)
      | none => get? parsed k := by
  induction segs generalizing parsed with
  | nil => simp [lastValue]
  | cons seg rest ih =>
    rw [List.foldl_cons, ih, List.map_cons, lastValue_cons]
    cases h : lastValue (rest.map (fun seg =>
        (String.mk (keyText seg), literalValue (valueText seg)))) k with
    | some n => simp
    | none =>
      by_cases hk : String.mk (keyText seg) = k
      · subst hk
        simp [storeField, get?_set_self]
      · simp [storeField, hk, get?_set_ne _ _ _ _ hk]

theorem mem_keys_foldl_storeField (segs : List (List Char)) (parsed : Toxic) (k : String) :
    k ∈ keys (segs.foldl storeField parsed) ↔
      k ∈ keys parsed ∨ ∃ seg ∈ segs, String.mk (keyText seg) = k := by
  induction segs generalizing parsed with
  | nil => simp
  | cons seg rest ih =>
    rw [List.foldl_cons, ih, storeField, mem_keys_set]
    simp only [List.mem_cons, exists_eq_or_imp]
    constructor
    · rintro ((h | h) | h)
      · exact Or.inr (Or.inl h.symm)
      · exact Or.inl h
      · exact Or.inr (Or.inr h)
    · rintro (h | h | h)
      · exact Or.inl (Or.inr h)
      · exact Or.inl (Or.inl h.symm)
      · exact Or.inr h

theorem nodup_keys_foldl_storeField (segs : List (List Char)) (parsed : Toxic)
    (h : (keys parsed).Nodup) : (keys (segs.foldl storeField parsed)).Nodup := by
  induction segs generalizing parsed with
  | nil => simpa using h
  | cons seg rest ih =>
    rw [List.foldl_cons]
    exact ih _ (nodup_keys_set _ _ _ h)
theorem lastValue_eq_none (ps : List (String × Int)) (k : String)
    (h : k ∉ ps.map Prod.fst) : lastValue ps k = none := by
  unfold lastValue
  rw [Option.map_eq_none', List.find?_eq_none]
  intro x hx hk
  apply h
  have hxk : x.1 = k := by simpa using hk
  rw [← hxk]
  exact List.mem_map_of_mem Prod.fst (List.mem_reverse.1 hx)

theorem lastValue_of_nodup (ps : List (String × Int)) (hnd : (ps.map Prod.fst).Nodup)
    (p : String × Int) (hp : p ∈ ps) : lastValue ps p.1 = some p.2 := by
  induction ps with
  | nil => cases hp
  | cons q rest ih =>
    rw [List.map_cons, List.nodup_cons] at hnd
    rw [lastValue_cons]
    rcases List.mem_cons.1 hp with rfl | hmem
    · rw [lastValue_eq_none rest p.1 hnd.1]
      simp
    · rw [ih hnd.2 hmem]

/-! ## Claims on `parseFields` -/

/-- C1 (as stated, refuted): the field string `latency=9223372036854775808` is
well formed in the sense of the claim, one `key=value` segment whose value is
a base-10 integer literal, yet `parseFields` returns no mapping: the value
does not fit `int` and `Atoi` reports an error. -/
theorem parseFields_rejects_wide_literal :
    (∀ seg ∈ segments "latency=9223372036854775808", literalSegment seg = true) ∧
    parseFields "latency=9223372036854775808" = .error FieldError.notInteger := by
  decide

/-- C1 (amended): for a field string whose segments all are `key=value` with a
base-10 integer literal in the range of `int`, `parseFields` returns a mapping
with pairwise distinct keys, whose keys are exactly the keys written in the
string, each bound to the integer of its last occurrence; when the written
keys are distinct, each key is bound to its own integer. -/
theorem parseFields_mapping (raw : String)
    (hwf : ∀ seg ∈ segments raw, goodSegment seg = true) :
    ∃ parsed, parseFields raw = .ok parsed ∧ (keys parsed).Nodup ∧
      (∀ k, k ∈ keys parsed ↔ k ∈ (fieldPairs raw).map Prod.fst) ∧
      (∀ k, get? parsed k = (lastValue (fieldPairs raw) k).map Value.int) ∧
      (((fieldPairs raw).map Prod.fst).Nodup →
        ∀ p ∈ fieldPairs raw, get? parsed p.1 = some (Value.int p.2)) := by
  have hfind : (segments raw).find? (fun s => !goodSegment s) = none := by
    rw [List.find?_eq_none]
    intro s hs
    simp [hwf s hs]
  have hget : ∀ k, get? ((segments raw).foldl storeField []) k
      = (lastValue (fieldPairs raw) k).map Value.int := by
    intro k
    rw [get?_foldl_storeField]
    unfold fieldPairs
    cases lastValue ((segments raw).map (fun seg =>
        (String.mk (keyText seg), literalValue (valueText seg)))) k <;> simp [get?]
  refine ⟨(segments raw).foldl storeField [], ?_, ?_, ?_, hget, ?_⟩
  · show parseLoop (segments raw) [] = _
    rw [parseLoop_eq, hfind]
  · exact nodup_keys_foldl_storeField _ _ (by simp [keys])
  · intro k
    rw [mem_keys_foldl_storeField]
    simp [keys, fieldPairs]
  · intro hnd p hp
    rw [hget, lastValue_of_nodup _ hnd p hp]
    rfl

/-- Witness of `parseFields_mapping` at the field string of the specification,
with the mapping it yields. -/
theorem parseFields_mapping_witness :
    (∀ seg ∈ segments "latency=100,jitter=50", goodSegment seg = true) ∧
    parseFields "latency=100,jitter=50"
      = .ok [("latency", Value.int 100), ("jitter", Value.int 50)] ∧
    ∃ parsed, parseFields "latency=100,jitter=50" = .ok parsed ∧ (keys parsed).Nodup ∧
      (∀ k, k ∈ keys parsed ↔ k ∈ (fieldPairs "latency=100,jitter=50").map Prod.fst) ∧
      (∀ k, get? parsed k = (lastValue (fieldPairs "latency=100,jitter=50") k).map Value.int) ∧
      (((fieldPairs "latency=100,jitter=50").map Prod.fst).Nodup →
        ∀ p ∈ fieldPairs "latency=100,jitter=50", get? parsed p.1 = some (Value.int p.2)) :=
  ⟨by decide, by decide, parseFields_mapping "latency=100,jitter=50" (by decide)⟩

/-- C2 (as stated, refuted): every segment of `rate=-9223372036854775809` has an
`=` followed by a signed base-10 integer literal, yet `parseFields` stops with
the integer-format error. -/
theorem parseFields_rejects_literal_below_range :
    (∀ seg ∈ segments "rate=-9223372036854775809", literalSegment seg = true) ∧
    parseFields "rate=-9223372036854775809" = .error FieldError.notInteger := by
  decide

/-- C2 (amended): `parseFields` succeeds exactly when every comma-separated
segment has an `=` and the text after its first `=` is a signed base-10
integer literal within the range of `int`; otherwise it stops at the first
offending segment, with the format error when that segment has no `=` and with
the integer error when it has one. A string with a segment without `=`, and
the empty string, are rejected. -/
theorem parseFields_outcome (raw : String) :
    ((∃ parsed, parseFields raw = .ok parsed) ↔
      ∀ seg ∈ segments raw, goodSegment seg = true) ∧
    (∀ seg, (segments raw).find? (fun s => !goodSegment s) = some seg →
      parseFields raw
        = .error (if '=' ∈ seg then FieldError.notInteger else FieldError.format)) ∧
    ((∃ seg ∈ segments raw, '=' ∉ seg) → ∀ parsed, parseFields raw ≠ .ok parsed) ∧
    (raw = "" → parseFields raw = .error FieldError.format) := by
  have hiff : (∃ parsed, parseFields raw = .ok parsed) ↔
      ∀ seg ∈ segments raw, goodSegment seg = true := by
    constructor
    · rintro ⟨parsed, hp⟩ seg hseg
      have hp2 : parseLoop (segments raw) [] = .ok parsed := hp
      rw [parseLoop_eq] at hp2
      cases hf : (segments raw).find? (fun s => !goodSegment s) with
      | some bad => rw [hf] at hp2; cases hp2
      | none =>
        rw [List.find?_eq_none] at hf
        simpa using hf seg hseg
    · intro hwf
      have hfind : (segments raw).find? (fun s => !goodSegment s) = none := by
        rw [List.find?_eq_none]
        intro s hs
        simp [hwf s hs]
      refine ⟨(segments raw).foldl storeField [], ?_⟩
      show parseLoop (segments raw) [] = _
      rw [parseLoop_eq, hfind]
  refine ⟨hiff, ?_, ?_, ?_⟩
  · intro seg hf
    show parseLoop (segments raw) [] = _
    rw [parseLoop_eq, hf]
  · rintro ⟨seg, hseg, hne⟩ parsed hp
    have := hiff.1 ⟨parsed, hp⟩ seg hseg
    simp [goodSegment, literalSegment, hne] at this
  · intro h
    subst h
    decide
/-! ## Maps with distinct keys -/

theorem set_of_not_mem {V : Type} (m : GoMap V) (k : String) (v : V) (h : k ∉ keys m) :
    set m k v = m ++ [(k, v)] := by
  induction m with
  | nil => rfl
  | cons p rest ih =>
    obtain ⟨k1, v1⟩ := p
    have hk : ¬ (k1 = k) := fun e => h (by simp [keys, e])
    have hr : k ∉ keys rest := fun e => h (by simp [keys] at e ⊢; exact Or.inr e)
    simp [set, hk, ih hr]

theorem get?_eq_some_iff {V : Type} (m : GoMap V) (hnd : (keys m).Nodup) (k : String) (v : V) :
    get? m k = some v ↔ (k, v) ∈ m := by
  induction m with
  | nil => simp [get?]
  | cons p rest ih =>
    obtain ⟨k1, v1⟩ := p
    have hn : k1 ∉ keys rest ∧ (keys rest).Nodup := by simpa [keys] using hnd
    by_cases h : k1 = k
    · subst h
      simp only [get?, if_true, Option.some.injEq, List.mem_cons, Prod.mk.injEq, true_and]
      constructor
      · intro e; exact Or.inl e.symm
      · rintro (e | e)
        · exact e.symm
        · exact absurd (List.mem_map_of_mem Prod.fst e) hn.1
    · have h2 : ¬ (k = k1) := fun e => h e.symm
      simp [get?, h, h2, ih hn.2]

theorem nodup_keys_filter {V : Type} (m : GoMap V) (p : String × V → Bool)
    (hnd : (keys m).Nodup) : (keys (m.filter p)).Nodup :=
  List.Nodup.sublist (List.Sublist.map Prod.fst (List.filter_sublist m)) hnd

theorem length_filter_add {α : Type} (p : α → Bool) (l : List α) :
    (l.filter p).length + (l.filter (fun a => !p a)).length = l.length := by
  induction l with
  | nil => rfl
  | cons a l ih =>
    cases h : p a <;> simp [List.filter_cons, h] <;> omega

/-! ## The direction split -/

theorem splitLoop_eq_none_iff (rest upstream downstream : Toxics) :
    splitLoop rest upstream downstream = none ↔ ∃ e ∈ rest, hasStream e.2 = false := by
  induction rest generalizing upstream downstream with
  | nil => simp [splitLoop]
  | cons e rest ih =>
    obtain ⟨k, toxic⟩ := e
    rw [splitLoop]
    cases h : assertString (get? toxic "stream") with
    | none => simp [hasStream, h]
    | some s =>
      have hs : hasStream toxic = true := by simp [hasStream, h]
      by_cases hu : s = "upstream"
      · simp [hu, ih, hs]
      · simp [hu, ih, hs]

theorem assertString_eq_some (o : Option Value) (s : String) :
    assertString o = some s ↔ o = some (Value.str s) := by
  cases o with
  | none => simp [assertString]
  | some v => cases v <;> simp [assertString]

theorem splitLoop_eq_filter (rest upstream downstream : Toxics)
    (hstr : ∀ e ∈ rest, hasStream e.2 = true) (hnd : (keys rest).Nodup)
    (hup : ∀ k ∈ keys rest, k ∉ keys upstream) (hdown : ∀ k ∈ keys rest, k ∉ keys downstream) :
    splitLoop rest upstream downstream =
      some (upstream ++ rest.filter (fun e => streamIs "upstream" e.2),
        downstream ++ rest.filter (fun e => !streamIs "upstream" e.2)) := by
  induction rest generalizing upstream downstream with
  | nil => simp [splitLoop]
  | cons e rest ih =>
    obtain ⟨k, toxic⟩ := e
    have hn : k ∉ keys rest ∧ (keys rest).Nodup := by simpa [keys] using hnd
    have hstr2 : ∀ e ∈ rest, hasStream e.2 = true :=
      fun e he => hstr e (List.mem_cons_of_mem _ he)
    have hkr : ∀ k2 ∈ keys rest, k2 ≠ k := fun k2 h2 e => hn.1 (e ▸ h2)
    have hk1 : k ∈ keys ((k, toxic) :: rest) := by simp [keys]
    have hsub : ∀ k2 ∈ keys rest, k2 ∈ keys ((k, toxic) :: rest) := by
      intro k2 h2
      simp only [keys, List.map_cons, List.mem_cons]
      exact Or.inr h2
    rw [splitLoop]
    cases h : assertString (get? toxic "stream") with
    | none =>
      have := hstr (k, toxic) (List.mem_cons_self _ _)
      simp [hasStream, h] at this
    | some s =>
      rw [assertString_eq_some] at h
      by_cases hu : s = "upstream"
      · subst hu
        have hf : streamIs "upstream" toxic = true := by simp [streamIs, h]
        simp only [if_true, List.filter_cons, hf, Bool.not_true]
        rw [set_of_not_mem _ _ _ (hup k hk1), ih _ _ hstr2 hn.2 ?_ ?_]
        · simp
        · intro k2 h2
          simp only [keys, List.map_append, List.map_cons, List.map_nil, List.mem_append,
            List.mem_singleton, not_or]
          exact ⟨hup k2 (hsub k2 h2), hkr k2 h2⟩
        · exact fun k2 h2 => hdown k2 (hsub k2 h2)
      · have hf : streamIs "upstream" toxic = false := by
          simp only [streamIs, h, decide_eq_false_iff_not, Option.some.injEq, Value.str.injEq]
          exact hu
        simp only [hu, if_false, List.filter_cons, hf, Bool.not_false, if_true]
        rw [set_of_not_mem _ _ _ (hdown k hk1), ih _ _ hstr2 hn.2 ?_ ?_]
        · simp
        · exact fun k2 h2 => hup k2 (hsub k2 h2)
        · intro k2 h2
          simp only [keys, List.map_append, List.map_cons, List.map_nil, List.mem_append,
            List.mem_singleton, not_or]
          exact ⟨hdown k2 (hsub k2 h2), hkr k2 h2⟩

theorem splitToxics_eq_filter (toxics : Toxics)
    (hstr : ∀ e ∈ toxics, hasStream e.2 = true) (hnd : (keys toxics).Nodup) :
    splitToxics toxics =
      some (toxics.filter (fun e => streamIs "upstream" e.2),
        toxics.filter (fun e => !streamIs "upstream" e.2)) := by
  unfold splitToxics
  rw [splitLoop_eq_filter toxics [] [] hstr hnd (by simp [keys]) (by simp [keys])]
  simp
theorem hasStream_iff (toxic : Toxic) :
    hasStream toxic = true ↔ ∃ s, get? toxic "stream" = some (Value.str s) := by
  unfold hasStream
  rw [Option.isSome_iff_exists]
  exact exists_congr (fun s => assertString_eq_some _ s)

/-- C3: for a toxic mapping (distinct names) in which every toxic carries a
string-valued `stream`, `splitToxics` returns two mappings that partition the
input: every input name is bound, to its own toxic, in exactly one of them, no
other name occurs, the sizes add up to the size of the input, and a toxic is in
the upstream mapping exactly when its stream is `upstream`. -/
theorem splitToxics_partition (toxics : Toxics) (hnd : (keys toxics).Nodup)
    (hstr : ∀ e ∈ toxics, ∃ s, get? e.2 "stream" = some (Value.str s)) :
    ∃ up down, splitToxics toxics = some (up, down) ∧
      (keys up).Nodup ∧ (keys down).Nodup ∧
      (∀ name toxic, get? toxics name = some toxic →
        (get? up name = some toxic ∧ name ∉ keys down) ∨
        (get? down name = some toxic ∧ name ∉ keys up)) ∧
      (∀ name, name ∈ keys up ∨ name ∈ keys down → name ∈ keys toxics) ∧
      up.length + down.length = toxics.length ∧
      (∀ name toxic, get? toxics name = some toxic →
        (name ∈ keys up ↔ get? toxic "stream" = some (Value.str "upstream")) ∧
        (name ∈ keys down ↔ get? toxic "stream" ≠ some (Value.str "upstream"))) := by
  have hstr2 : ∀ e ∈ toxics, hasStream e.2 = true :=
    fun e he => (hasStream_iff e.2).2 (hstr e he)
  have hup := nodup_keys_filter toxics (fun e => streamIs "upstream" e.2) hnd
  have hdown := nodup_keys_filter toxics (fun e => !streamIs "upstream" e.2) hnd
  have hkey : ∀ (p : String × Toxic → Bool) (name : String),
      name ∈ keys (toxics.filter p) → ∃ toxic, get? toxics name = some toxic ∧
        p (name, toxic) = true := by
    intro p name hmem
    obtain ⟨e, he, rfl⟩ := List.mem_map.1 hmem
    rw [List.mem_filter] at he
    exact ⟨e.2, (get?_eq_some_iff toxics hnd e.1 e.2).2 he.1, he.2⟩
  have hin : ∀ (p : String × Toxic → Bool) (name : String) (toxic : Toxic),
      get? toxics name = some toxic → p (name, toxic) = true →
        get? (toxics.filter p) name = some toxic := by
    intro p name toxic hget hp
    rw [get?_eq_some_iff _ (nodup_keys_filter toxics p hnd), List.mem_filter]
    exact ⟨(get?_eq_some_iff toxics hnd name toxic).1 hget, hp⟩
  have hmemup : ∀ name toxic, get? toxics name = some toxic →
      (name ∈ keys (toxics.filter (fun e => streamIs "upstream" e.2)) ↔
        streamIs "upstream" toxic = true) := by
    intro name toxic hget
    constructor
    · intro hmem
      obtain ⟨t2, h2, hp⟩ := hkey _ name hmem
      rw [hget] at h2
      cases h2
      exact hp
    · intro hp
      exact (mem_keys_iff_get? _ name).2 ⟨toxic, hin _ name toxic hget hp⟩
  have hmemdown : ∀ name toxic, get? toxics name = some toxic →
      (name ∈ keys (toxics.filter (fun e => !streamIs "upstream" e.2)) ↔
        streamIs "upstream" toxic = false) := by
    intro name toxic hget
    constructor
    · intro hmem
      obtain ⟨t2, h2, hp⟩ := hkey _ name hmem
      rw [hget] at h2
      cases h2
      simpa using hp
    · intro hp
      exact (mem_keys_iff_get? _ name).2 ⟨toxic, hin _ name toxic hget (by simpa using hp)⟩
  refine ⟨_, _, splitToxics_eq_filter toxics hstr2 hnd, hup, hdown, ?_, ?_, ?_, ?_⟩
  · intro name toxic hget
    cases hs : streamIs "upstream" toxic with
    | true =>
      refine Or.inl ⟨hin _ name toxic hget hs, ?_⟩
      rw [hmemdown name toxic hget, hs]
      simp
    | false =>
      refine Or.inr ⟨hin _ name toxic hget (by simpa using hs), ?_⟩
      rw [hmemup name toxic hget, hs]
      simp
  · rintro name (h | h)
    · obtain ⟨toxic, hget, _⟩ := hkey _ name h
      exact (mem_keys_iff_get? _ name).2 ⟨toxic, hget⟩
    · obtain ⟨toxic, hget, _⟩ := hkey _ name h
      exact (mem_keys_iff_get? _ name).2 ⟨toxic, hget⟩
  · exact length_filter_add _ toxics
  · intro name toxic hget
    rw [hmemup name toxic hget, hmemdown name toxic hget]
    simp [streamIs]

/-- Witness of `splitToxics_partition`: one upstream toxic, one downstream
toxic and one with another stream value. -/
theorem splitToxics_partition_witness :
    ∃ up down, splitToxics
        [("a", [("stream", Value.str "upstream")]),
         ("b", [("stream", Value.str "downstream")]),
         ("c", [("stream", Value.str "sideways")])] = some (up, down) ∧
      (keys up).Nodup ∧ (keys down).Nodup ∧
      (∀ name toxic, get? ([("a", [("stream", Value.str "upstream")]),
         ("b", [("stream", Value.str "downstream")]),
         ("c", [("stream", Value.str "sideways")])] : Toxics) name = some toxic →
        (get? up name = some toxic ∧ name ∉ keys down) ∨
        (get? down name = some toxic ∧ name ∉ keys up)) ∧
      (∀ name, name ∈ keys up ∨ name ∈ keys down → name ∈ keys
        ([("a", [("stream", Value.str "upstream")]),
         ("b", [("stream", Value.str "downstream")]),
         ("c", [("stream", Value.str "sideways")])] : Toxics)) ∧
      up.length + down.length = ([("a", [("stream", Value.str "upstream")]),
         ("b", [("stream", Value.str "downstream")]),
         ("c", [("stream", Value.str "sideways")])] : Toxics).length ∧
      (∀ name toxic, get? ([("a", [("stream", Value.str "upstream")]),
         ("b", [("stream", Value.str "downstream")]),
         ("c", [("stream", Value.str "sideways")])] : Toxics) name = some toxic →
        (name ∈ keys up ↔ get? toxic "stream" = some (Value.str "upstream")) ∧
        (name ∈ keys down ↔ get? toxic "stream" ≠ some (Value.str "upstream"))) :=
  splitToxics_partition _ (by decide) (by
    intro e he
    simp only [List.mem_cons, List.mem_singleton, List.not_mem_nil, or_false] at he
    rcases he with rfl | rfl | rfl
    · exact ⟨"upstream", rfl⟩
    · exact ⟨"downstream", rfl⟩
    · exact ⟨"sideways", rfl⟩)

/-- C4 (as stated, refuted): on a mapping with one toxic that has no `stream`
field, `splitToxics` returns no result: the type assertion on the absent
field panics. -/
theorem splitToxics_panics_without_stream :
    get? ([("type", Value.str "latency")] : Toxic) "stream" = none ∧
    splitToxics [("latency_downstream", [("type", Value.str "latency")])] = none := by
  decide

/-- C4 (amended): `splitToxics` returns a result exactly for the toxic mappings
in which every toxic carries a string-valued `stream`; a mapping that contains
a toxic without a `stream` field gives no result (a panic). -/
theorem splitToxics_total_iff (toxics : Toxics) :
    ((∃ up down, splitToxics toxics = some (up, down)) ↔
      ∀ e ∈ toxics, ∃ s, get? e.2 "stream" = some (Value.str s)) ∧
    ((∃ e ∈ toxics, get? e.2 "stream" = none) → splitToxics toxics = none) := by
  have hnone := splitLoop_eq_none_iff toxics [] []
  constructor
  · constructor
    · rintro ⟨up, down, h⟩ e he
      rw [← hasStream_iff]
      by_contra hc
      have : splitToxics toxics = none :=
        hnone.2 ⟨e, he, by simpa using hc⟩
      rw [this] at h
      cases h
    · intro hall
      cases h : splitToxics toxics with
      | some r => exact ⟨r.1, r.2, rfl⟩
      | none =>
        obtain ⟨e, he, hs⟩ := hnone.1 h
        rw [(hasStream_iff e.2).2 (hall e he)] at hs
        cases hs
  · rintro ⟨e, he, hs⟩
    exact hnone.2 ⟨e, he, by simp [hasStream, hs, assertString]⟩
/-! ## Stepping through commands -/

theorem pure_apply {σ α : Type} (a : α) (w : World σ) :
    (pure a : Cmd σ α) w = Step.next a w := rfl

theorem bind_apply {σ α β : Type} (x : Cmd σ α) (f : α → Cmd σ β) (w : World σ) :
    (x >>= f) w = match x w with
      | .next a w1 => f a w1
      | .stop e w1 => .stop e w1 := rfl

theorem print_apply {σ : Type} (o : Out) (w : World σ) :
    (print o : Cmd σ Unit) w = Step.next () { w with out := w.out ++ [o] } := rfl

theorem fatalf_apply {σ α : Type} (o : Out) (w : World σ) :
    (fatalf o : Cmd σ α) w = Step.stop Exit.fatal { w with out := w.out ++ [o] } := rfl

theorem goPanic_apply {σ α : Type} (w : World σ) :
    (goPanic : Cmd σ α) w = Step.stop Exit.panic w := rfl

theorem request_apply {σ α : Type} (c : Call) (f : σ → Except String α × σ) (w : World σ) :
    request c f w
      = Step.next (f w.st).1 { w with st := (f w.st).2, calls := w.calls ++ [c] } := rfl

/-- C8: for a non-empty proxy name and a service on which the fetch and the
save succeed, `toggle` issues one `Proxy` request followed by one `Save`
request and nothing else; the saved proxy is the fetched one with the enabled
flag negated and every other attribute unchanged. -/
theorem toggle_fetch_then_save {σ : Type} (t : Client σ) (c : Context) (s s1 s2 : σ)
    (proxy : Proxy) (hname : c.first ≠ "")
    (hfetch : t.proxy c.first s = (.ok proxy, s1))
    (hsave : t.save { proxy with enabled := !proxy.enabled } s1 = (.ok (), s2)) :
    ∃ saved, (run (toggle t c) s).calls = [Call.proxy c.first, Call.save saved] ∧
      saved.enabled = (!proxy.enabled) ∧ saved.name = proxy.name ∧
      saved.listen = proxy.listen ∧ saved.upstream = proxy.upstream ∧
      saved.activeToxics = proxy.activeToxics ∧
      (run (toggle t c) s).exit = Exit.ok ∧ (run (toggle t c) s).st = s2 := by
  refine ⟨{ proxy with enabled := !proxy.enabled }, ?_, rfl, rfl, rfl, rfl, rfl, ?_, ?_⟩ <;>
    simp [run, toggle, hname, bind_apply, request_apply, hfetch, hsave, print_apply]
theorem run_calls {σ : Type} (m : Cmd σ Unit) (s : σ) :
    (run m s).calls = match m ⟨s, [], []⟩ with
      | .next _ w => w.calls
      | .stop _ w => w.calls := by
  unfold run
  split <;> rfl

theorem run_exit {σ : Type} (m : Cmd σ Unit) (s : σ) :
    (run m s).exit = match m ⟨s, [], []⟩ with
      | .next _ _ => Exit.ok
      | .stop e _ => e := by
  unfold run
  split <;> rfl

theorem run_out {σ : Type} (m : Cmd σ Unit) (s : σ) :
    (run m s).out = match m ⟨s, [], []⟩ with
      | .next _ w => w.out
      | .stop _ w => w.out := by
  unfold run
  split <;> rfl

theorem getArgOrFail_apply {σ : Type} (c : Context) (name : String) (w : World σ) :
    (getArgOrFail c name : Cmd σ String) w =
      if c.string name = "" then
        Step.stop Exit.fatal { w with out := w.out ++ [Out.requiredArgEmpty name] }
      else Step.next (c.string name) w := by
  unfold getArgOrFail
  split <;> rfl

theorem parseFieldsCmd_apply {σ : Type} (raw : String) (w : World σ) :
    (parseFieldsCmd raw : Cmd σ Toxic) w =
      match parseFields raw with
      | .ok fields => Step.next fields w
      | .error e => Step.stop Exit.fatal { w with out := w.out ++ [Out.badFields e] } := by
  unfold parseFieldsCmd
  cases parseFields raw <;> rfl

/-- The calls of the closure `addToxic(stream)`: one `AddToxic` request,
whatever the service answers. -/
theorem addToxicTo_calls {σ : Type} (t : Client σ) (p : Proxy)
    (proxyName toxicName toxicType : String) (fields : Toxic) (stream : String)
    (w : World σ) :
    (match addToxicTo t p proxyName toxicName toxicType fields stream w with
      | .next _ w1 => w1.calls
      | .stop _ w1 => w1.calls)
      = w.calls ++ [Call.addToxic p toxicName toxicType stream fields] := by
  simp only [addToxicTo, bind_apply, request_apply]
  cases (t.addToxic p toxicName toxicType stream fields w.st).1 with
  | error err => simp [fatalf_apply]
  | ok tox =>
    simp only
    cases assertString (get? tox "name") with
    | none => simp [goPanic_apply]
    | some n => simp [bind_apply, print_apply, pure_apply]

/-- C6: for a `toxic add` invocation with valid arguments and a service on
which the fetch of the proxy succeeds, without `--upstream` (with or without
`--downstream`) exactly one `AddToxic` request is issued and its stream is
`downstream`; with `--upstream` alone exactly one `AddToxic` request is issued
and its stream is `upstream`. -/
theorem addToxic_one_direction {σ : Type} (t : Client σ) (c : Context) (s s1 : σ)
    (p : Proxy) (fields : Toxic) (hname : c.first ≠ "") (htype : c.string "type" ≠ "")
    (hfields : c.string "fields" ≠ "")
    (hparse : parseFields (c.string "fields") = .ok fields)
    (hfetch : t.proxy c.first s = (.ok p, s1)) :
    (c.bool "upstream" = false →
      (run (addToxic t c) s).calls = [Call.proxy c.first,
        Call.addToxic p (c.string "toxicName") (c.string "type") "downstream" fields]) ∧
    (c.bool "upstream" = true → c.bool "downstream" = false →
      (run (addToxic t c) s).calls = [Call.proxy c.first,
        Call.addToxic p (c.string "toxicName") (c.string "type") "upstream" fields]) := by
  constructor
  · intro hup
    rw [run_calls]
    simp only [addToxic, hname, if_false, bind_apply, getArgOrFail_apply, htype, hfields,
      parseFieldsCmd_apply, hparse, request_apply, hfetch, hup, pure_apply, Bool.not_false,
      Bool.and_true, Bool.or_not_self, if_true, Bool.false_eq_true]
    have h := addToxicTo_calls t p c.first (c.string "toxicName") (c.string "type") fields
      "downstream" ⟨s1, [] ++ [Call.proxy c.first], []⟩
    revert h
    cases addToxicTo t p c.first (c.string "toxicName") (c.string "type") fields
      "downstream" ⟨s1, [] ++ [Call.proxy c.first], []⟩ <;> simp [pure_apply]
  · intro hup hdown
    rw [run_calls]
    simp only [addToxic, hname, if_false, bind_apply, getArgOrFail_apply, htype, hfields,
      parseFieldsCmd_apply, hparse, request_apply, hfetch, hup, hdown, pure_apply,
      Bool.not_false, Bool.not_true, Bool.and_false, Bool.or_false, if_true,
      Bool.false_eq_true]
    have h := addToxicTo_calls t p c.first (c.string "toxicName") (c.string "type") fields
      "upstream" ⟨s1, [] ++ [Call.proxy c.first], []⟩
    revert h
    cases addToxicTo t p c.first (c.string "toxicName") (c.string "type") fields
      "upstream" ⟨s1, [] ++ [Call.proxy c.first], []⟩ <;> simp [pure_apply]
/-- Witness of `toggle_fetch_then_save` on the example service. -/
theorem toggle_fetch_then_save_witness :
    ∃ saved, (run (toggle demoClient (addContext "" false false)) 0).calls
        = [Call.proxy "redis", Call.save saved] ∧
      saved.enabled = (!demoProxy.enabled) ∧ saved.name = demoProxy.name ∧
      saved.listen = demoProxy.listen ∧ saved.upstream = demoProxy.upstream ∧
      saved.activeToxics = demoProxy.activeToxics ∧
      (run (toggle demoClient (addContext "" false false)) 0).exit = Exit.ok ∧
      (run (toggle demoClient (addContext "" false false)) 0).st = 2 :=
  toggle_fetch_then_save demoClient (addContext "" false false) 0 1 2 demoProxy
    (by decide) rfl rfl

/-- Witness of `addToxic_one_direction` on the example service, without
direction flags. -/
theorem addToxic_one_direction_witness :
    (addContext "" false false).first ≠ "" ∧
    parseFields ((addContext "" false false).string "fields")
      = .ok [("latency", Value.int 100)] ∧
    (run (addToxic demoClient (addContext "" false false)) 0).calls
      = [Call.proxy "redis",
         Call.addToxic demoProxy "" "latency" "downstream" [("latency", Value.int 100)]] :=
  ⟨by decide, by decide,
    (addToxic_one_direction demoClient (addContext "" false false) 0 1 demoProxy
      [("latency", Value.int 100)] (by decide) (by decide) (by decide) (by decide) rfl).1 rfl⟩

theorem addToxicTo_ok {σ : Type} (t : Client σ) (p : Proxy)
    (proxyName toxicName toxicType : String) (fields : Toxic) (stream : String)
    (w : World σ) (tox : Toxic) (s2 : σ) (n1 : String)
    (hadd : t.addToxic p toxicName toxicType stream fields w.st = (.ok tox, s2))
    (hn : get? tox "name" = some (Value.str n1)) :
    addToxicTo t p proxyName toxicName toxicType fields stream w
      = Step.next n1
          { st := s2
            calls := w.calls ++ [Call.addToxic p toxicName toxicType stream fields]
            out := w.out ++ [Out.added stream toxicType n1 proxyName] } := by
  simp [addToxicTo, bind_apply, request_apply, hadd, hn, assertString, print_apply,
    pure_apply]

/-- C5 (defect of the code): on the example service, on which every request
succeeds, `toxic add` without a name and with both direction flags issues two
`AddToxic` requests whose names differ: the first carries the empty name given
with `-n`, the second the name `latency_upstream` that the service gave to the
first toxic, because the closure has overwritten `toxicName` for its message.
The same closure reached with `--downstream` alone sends the name given with
`-n`. -/
theorem addToxic_second_name_differs :
    (addContext "" true true).bool "upstream" = true ∧
    (addContext "" true true).bool "downstream" = true ∧
    (addContext "" true true).string "toxicName" = "" ∧
    (∀ name s, ∃ p, (demoClient.proxy name s).1 = .ok p) ∧
    (∀ p name typ stream fields s, ∃ tox,
      (demoClient.addToxic p name typ stream fields s).1 = .ok tox) ∧
    (run (addToxic demoClient (addContext "" true true)) 0).calls
      = [Call.proxy "redis",
         Call.addToxic demoProxy "" "latency" "upstream" [("latency", Value.int 100)],
         Call.addToxic demoProxy "latency_upstream" "latency" "downstream"
           [("latency", Value.int 100)]] ∧
    (run (addToxic demoClient (addContext "" true true)) 0).out
      = [Out.added "upstream" "latency" "latency_upstream" "redis",
         Out.added "downstream" "latency" "latency_upstream" "redis"] ∧
    (run (addToxic demoClient (addContext "" false true)) 0).calls
      = [Call.proxy "redis",
         Call.addToxic demoProxy "" "latency" "downstream" [("latency", Value.int 100)]] :=
  ⟨by decide, by decide, by decide, fun _ _ => ⟨_, rfl⟩, fun _ _ _ _ _ _ => ⟨_, rfl⟩,
    by decide, by decide, by decide⟩

/-- The requests of the handler `addToxic` with both direction flags, valid
arguments, and a service on which the fetch and the first `AddToxic` succeed
with a toxic that carries a string name: the fetch, an `AddToxic` with stream
`upstream` and the name given with `-n`, and an `AddToxic` with stream
`downstream` and the name returned for the first toxic; type and fields are
the same in both. -/
theorem addToxic_both_directions {σ : Type} (t : Client σ) (c : Context) (s s1 s2 : σ)
    (p : Proxy) (fields tox : Toxic) (n1 : String)
    (hname : c.first ≠ "") (htype : c.string "type" ≠ "")
    (hfields : c.string "fields" ≠ "")
    (hparse : parseFields (c.string "fields") = .ok fields)
    (hup : c.bool "upstream" = true) (hdown : c.bool "downstream" = true)
    (hfetch : t.proxy c.first s = (.ok p, s1))
    (hadd : t.addToxic p (c.string "toxicName") (c.string "type") "upstream" fields s1
      = (.ok tox, s2))
    (hn : get? tox "name" = some (Value.str n1)) :
    (run (addToxic t c) s).calls = [Call.proxy c.first,
        Call.addToxic p (c.string "toxicName") (c.string "type") "upstream" fields,
        Call.addToxic p n1 (c.string "type") "downstream" fields] ∧
    (n1 = c.string "toxicName" →
      (run (addToxic t c) s).calls = [Call.proxy c.first,
        Call.addToxic p (c.string "toxicName") (c.string "type") "upstream" fields,
        Call.addToxic p (c.string "toxicName") (c.string "type") "downstream" fields]) := by
  have hcalls : (run (addToxic t c) s).calls = [Call.proxy c.first,
      Call.addToxic p (c.string "toxicName") (c.string "type") "upstream" fields,
      Call.addToxic p n1 (c.string "type") "downstream" fields] := by
    rw [run_calls]
    simp only [addToxic, hname, if_false, bind_apply, getArgOrFail_apply, htype, hfields,
      parseFieldsCmd_apply, hparse, request_apply, hfetch, hup, hdown, pure_apply, if_true,
      Bool.true_or]
    rw [addToxicTo_ok t p c.first (c.string "toxicName") (c.string "type") fields "upstream"
      ⟨s1, [] ++ [Call.proxy c.first], []⟩ tox s2 n1 hadd hn]
    simp only
    have h := addToxicTo_calls t p c.first n1 (c.string "type") fields "downstream"
      ⟨s2, [] ++ [Call.proxy c.first] ++
        [Call.addToxic p (c.string "toxicName") (c.string "type") "upstream" fields],
        [] ++ [Out.added "upstream" (c.string "type") n1 c.first]⟩
    revert h
    cases addToxicTo t p c.first n1 (c.string "type") fields "downstream"
      ⟨s2, [] ++ [Call.proxy c.first] ++
        [Call.addToxic p (c.string "toxicName") (c.string "type") "upstream" fields],
        [] ++ [Out.added "upstream" (c.string "type") n1 c.first]⟩ <;> simp [pure_apply]
  refine ⟨hcalls, ?_⟩
  intro he
  rw [hcalls, he]

/-- The handler `addToxic` on the example service with both direction flags
and the toxic name `slow` given: the service returns the name it was given and
both requests carry it. -/
theorem addToxic_both_directions_witness :
    (run (addToxic demoClient (addContext "slow" true true)) 0).calls
      = [Call.proxy "redis",
         Call.addToxic demoProxy "slow" "latency" "upstream" [("latency", Value.int 100)],
         Call.addToxic demoProxy "slow" "latency" "downstream"
           [("latency", Value.int 100)]] :=
  (addToxic_both_directions demoClient (addContext "slow" true true) 0 1 2 demoProxy
    [("latency", Value.int 100)]
    [("latency", Value.int 100), ("name", Value.str "slow"),
      ("type", Value.str "latency"), ("stream", Value.str "upstream")] "slow"
    (by decide) (by decide) (by decide) (by decide) rfl rfl rfl rfl rfl).1

/-- C7: for every handler with required arguments, an invocation in which a
required argument is empty (the proxy name; `--listen` or `--upstream` for
`create`; `--type` or `--fields` for `toxic add`; `--toxicName` or `--fields`
for `toxic update`; `--toxicName` for `toxic remove`) or in which the fields
string fails to parse ends with the fatal exit and has issued no request to
the service, whose state is untouched. -/
theorem invalid_arguments_no_request {σ : Type} (cmd : Command) (t : Client σ)
    (c : Context) (s : σ) (h : missingArgument cmd c ∨ fieldsRejected cmd c) :
    (run (dispatch cmd t c) s).exit = Exit.fatal ∧
    (run (dispatch cmd t c) s).calls = [] ∧
    (run (dispatch cmd t c) s).st = s := by
  cases cmd with
  | list =>
    rcases h with h | ⟨h | h, _⟩
    · exact absurd h (by simp [missingArgument])
    · cases h
    · cases h
  | inspect =>
    rcases h with h | ⟨h | h, _⟩
    · have h1 : c.first = "" := h
      simp [run, dispatch, inspect, h1, fatalf_apply]
    · cases h
    · cases h
  | toggle =>
    rcases h with h | ⟨h | h, _⟩
    · have h1 : c.first = "" := h
      simp [run, dispatch, toggle, h1, fatalf_apply]
    · cases h
    · cases h
  | delete =>
    rcases h with h | ⟨h | h, _⟩
    · have h1 : c.first = "" := h
      simp [run, dispatch, delete, h1, fatalf_apply]
    · cases h
    · cases h
  | create =>
    rcases h with h | ⟨h | h, _⟩
    · have h1 : c.first = "" ∨ c.string "listen" = "" ∨ c.string "upstream" = "" := h
      by_cases hf : c.first = ""
      · simp [run, dispatch, create, hf, fatalf_apply]
      · by_cases hl : c.string "listen" = ""
        · simp [run, dispatch, create, hf, hl, fatalf_apply, bind_apply, getArgOrFail_apply]
        · have hu : c.string "upstream" = "" := by tauto
          simp [run, dispatch, create, hf, hl, hu, fatalf_apply, bind_apply,
            getArgOrFail_apply]
    · cases h
    · cases h
  | toxicRemove =>
    rcases h with h | ⟨h | h, _⟩
    · have h1 : c.first = "" ∨ c.string "toxicName" = "" := h
      by_cases hf : c.first = ""
      · simp [run, dispatch, removeToxic, hf, fatalf_apply]
      · have hn : c.string "toxicName" = "" := by tauto
        simp [run, dispatch, removeToxic, hf, hn, fatalf_apply, bind_apply,
          getArgOrFail_apply]
    · cases h
    · cases h
  | toxicAdd =>
    by_cases hf : c.first = ""
    · simp [run, dispatch, addToxic, hf, fatalf_apply]
    · by_cases ht : c.string "type" = ""
      · simp [run, dispatch, addToxic, hf, ht, fatalf_apply, bind_apply, getArgOrFail_apply]
      · by_cases hd : c.string "fields" = ""
        · simp [run, dispatch, addToxic, hf, ht, hd, fatalf_apply, bind_apply,
            getArgOrFail_apply]
        · have hrej : ∃ e, parseFields (c.string "fields") = .error e := by
            rcases h with h | ⟨_, h⟩
            · have h1 : c.first = "" ∨ c.string "type" = "" ∨ c.string "fields" = "" := h
              tauto
            · exact h
          obtain ⟨e, he⟩ := hrej
          simp [run, dispatch, addToxic, hf, ht, hd, bind_apply, getArgOrFail_apply,
            parseFieldsCmd_apply, he]
  | toxicUpdate =>
    by_cases hf : c.first = ""
    · simp [run, dispatch, updateToxic, hf, fatalf_apply]
    · by_cases ht : c.string "toxicName" = ""
      · simp [run, dispatch, updateToxic, hf, ht, fatalf_apply, bind_apply,
          getArgOrFail_apply]
      · by_cases hd : c.string "fields" = ""
        · simp [run, dispatch, updateToxic, hf, ht, hd, fatalf_apply, bind_apply,
            getArgOrFail_apply]
        · have hrej : ∃ e, parseFields (c.string "fields") = .error e := by
            rcases h with h | ⟨_, h⟩
            · have h1 : c.first = "" ∨ c.string "toxicName" = "" ∨ c.string "fields" = "" := h
              tauto
            · exact h
          obtain ⟨e, he⟩ := hrej
          simp [run, dispatch, updateToxic, hf, ht, hd, bind_apply, getArgOrFail_apply,
            parseFieldsCmd_apply, he]

/-- Witness of `invalid_arguments_no_request`: the fields string
`latency=100,jitter=abc` of the specification stops `toxic add` with the
integer-format error before any request. -/
theorem invalid_arguments_no_request_witness :
    parseFields ((fieldsContext "latency=100,jitter=abc").string "fields")
      = .error FieldError.notInteger ∧
    (run (dispatch Command.toxicAdd demoClient (fieldsContext "latency=100,jitter=abc")) 0).out
      = [Out.badFields FieldError.notInteger] ∧
    (run (dispatch Command.toxicAdd demoClient (fieldsContext "latency=100,jitter=abc")) 0).exit
      = Exit.fatal ∧
    (run (dispatch Command.toxicAdd demoClient (fieldsContext "latency=100,jitter=abc")) 0).calls
      = [] ∧
    (run (dispatch Command.toxicAdd demoClient (fieldsContext "latency=100,jitter=abc")) 0).st
      = 0 :=
  ⟨by decide, by decide,
    invalid_arguments_no_request Command.toxicAdd demoClient
      (fieldsContext "latency=100,jitter=abc") 0
      (Or.inr ⟨Or.inl rfl, FieldError.notInteger, by decide⟩)⟩
/-! ## The table of `list` -/

theorem filterMap_keys_self {V : Type} (m : GoMap V) (hnd : (keys m).Nodup) :
    (keys m).filterMap (fun k => (get? m k).map (fun v => (k, v))) = m := by
  induction m with
  | nil => rfl
  | cons p rest ih =>
    obtain ⟨k1, v1⟩ := p
    have hn : k1 ∉ keys rest ∧ (keys rest).Nodup := by simpa [keys] using hnd
    have hcongr : (keys rest).filterMap
        (fun k => (get? ((k1, v1) :: rest) k).map (fun v => (k, v)))
        = (keys rest).filterMap (fun k => (get? rest k).map (fun v => (k, v))) := by
      apply List.filterMap_congr
      intro k hk
      have hne : ¬ (k1 = k) := fun e => hn.1 (e ▸ hk)
      simp [get?, hne]
    have hhead : get? ((k1, v1) :: rest) k1 = some v1 := by simp [get?]
    have hk : keys ((k1, v1) :: rest) = k1 :: keys rest := rfl
    rw [hk]
    simp only [List.filterMap_cons, hhead, Option.map_some']
    rw [hcongr, ih hn.2]

theorem keys_filterMap_get? {V : Type} (m : GoMap V) (names : List String)
    (h : ∀ k ∈ names, k ∈ keys m) :
    keys (names.filterMap (fun k => (get? m k).map (fun v => (k, v)))) = names := by
  induction names with
  | nil => rfl
  | cons k rest ih =>
    obtain ⟨v, hv⟩ := (mem_keys_iff_get? m k).1 (h k (List.mem_cons_self _ _))
    have := ih (fun k2 h2 => h k2 (List.mem_cons_of_mem _ h2))
    simp only [keys] at this ⊢
    simp [List.filterMap_cons, hv, this]

theorem listRows_apply {σ : Type} (proxies : GoMap Proxy) (names : List String)
    (h : ∀ k ∈ names, k ∈ keys proxies) (w : World σ) :
    listRows proxies names w = Step.next ()
      ⟨w.st, w.calls, w.out ++ List.map (fun e => rowOf e.2)
        (names.filterMap (fun k => (get? proxies k).map (fun v => (k, v))))⟩ := by
  induction names generalizing w with
  | nil => simp [listRows, pure_apply]
  | cons k rest ih =>
    obtain ⟨v, hv⟩ := (mem_keys_iff_get? proxies k).1 (h k (List.mem_cons_self _ _))
    have := ih (fun k2 h2 => h k2 (List.mem_cons_of_mem _ h2))
    simp [listRows, hv, bind_apply, print_apply, this, List.filterMap_cons]

theorem isRow_rowOf (p : Proxy) : isRow (rowOf p) = true := rfl

theorem filter_isRow_rows (ents : GoMap Proxy) :
    (ents.map (fun e => rowOf e.2)).filter isRow = ents.map (fun e => rowOf e.2) := by
  rw [List.filter_eq_self]
  intro a ha
  obtain ⟨e, _, rfl⟩ := List.mem_map.1 ha
  rfl

theorem strLt_iff_lex (l1 l2 : List Char) :
    strLt l1 l2 = true ↔ List.Lex (fun a b : Char => a < b) l1 l2 := by
  induction l1 generalizing l2 with
  | nil =>
    cases l2 with
    | nil => simp [strLt]
    | cons b bs => simp [strLt, List.Lex.nil]
  | cons a as ih =>
    cases l2 with
    | nil => simp [strLt]
    | cons b bs =>
      unfold strLt
      by_cases h1 : a < b
      · simp [h1, List.Lex.rel h1]
      · by_cases h2 : b < a
        · simp only [h1, h2, if_false, if_true, Bool.false_eq_true, false_iff]
          intro h
          cases h with
          | cons h3 => exact lt_irrefl _ h2
          | rel h3 => exact h1 h3
        · have hab : a = b := le_antisymm (not_lt.1 h2) (not_lt.1 h1)
          subst hab
          simp only [h1, if_false, ih]
          exact List.Lex.cons_iff.symm

theorem strLt_iff (a b : String) : strLt a.data b.data = true ↔ a < b := by
  rw [String.lt_iff_toList_lt, strLt_iff_lex]
  rfl

theorem strLe_iff (a b : String) : strLt b.data a.data = false ↔ a ≤ b := by
  rw [← not_lt, ← strLt_iff]
  simp

theorem sortStrings_perm (names : List String) : List.Perm (sortStrings names) names :=
  List.perm_insertionSort _ _

theorem sortStrings_sorted (names : List String) :
    List.Sorted (fun a b : String => a ≤ b) (sortStrings names) := by
  haveI : IsTotal String (fun a b => strLt b.data a.data = false) :=
    ⟨fun a b => by
      rw [strLe_iff, strLe_iff]
      exact le_total a b⟩
  haveI : IsTrans String (fun a b => strLt b.data a.data = false) :=
    ⟨fun a b c => by
      rw [strLe_iff, strLe_iff, strLe_iff]
      exact le_trans⟩
  have h : List.Sorted (fun a b : String => strLt b.data a.data = false)
      (sortStrings names) := List.sorted_insertionSort _ _
  exact List.Pairwise.imp (fun {a b} hab => (strLe_iff a b).1 hab) h

theorem list_apply {σ : Type} (t : Client σ) (c : Context) (s s1 : σ)
    (proxies : GoMap Proxy) (hfetch : t.proxies s = (.ok proxies, s1)) :
    list t c ⟨s, [], []⟩ = Step.next ()
      ⟨s1, [Call.proxies], [Out.listHeader, Out.listRule] ++
        (if (sortStrings (keys proxies)).length = 0 then
          [Out.noProxies, Out.hint Hint.createProxy]
        else List.map (fun e => rowOf e.2)
          ((sortStrings (keys proxies)).filterMap
            (fun k => (get? proxies k).map (fun v => (k, v))))
          ++ [Out.newline, Out.hint Hint.inspectProxy])⟩ := by
  have hmem : ∀ k ∈ sortStrings (keys proxies), k ∈ keys proxies :=
    fun k hk => (sortStrings_perm _).subset hk
  simp only [list, bind_apply, request_apply, hfetch, print_apply]
  by_cases hz : (sortStrings (keys proxies)).length = 0
  · simp only [hz, if_true, bind_apply, print_apply]
    simp
  · simp only [hz, if_false, bind_apply, print_apply, listRows_apply proxies _ hmem]
    simp

/-- C9: for every proxy mapping (distinct names) returned by the service,
`list` renders one row for each proxy of the mapping and no other row, and the
rows are those of the entries of the mapping arranged in strictly ascending
order of name: the rendered proxies are a sorted permutation of the mapping. -/
theorem list_rows_sorted {σ : Type} (t : Client σ) (c : Context) (s s1 : σ)
    (proxies : GoMap Proxy) (hnd : (keys proxies).Nodup)
    (hfetch : t.proxies s = (.ok proxies, s1)) :
    ∃ ents : GoMap Proxy, List.Perm ents proxies ∧
      List.Sorted (fun a b => a < b) (keys ents) ∧
      (run (list t c) s).out.filter isRow = ents.map (fun e => rowOf e.2) ∧
      ((run (list t c) s).out.filter isRow).length = proxies.length ∧
      (run (list t c) s).exit = Exit.ok := by
  have hperm : List.Perm (sortStrings (keys proxies)) (keys proxies) :=
    sortStrings_perm _
  have hsorted : List.Sorted (fun a b : String => a ≤ b) (sortStrings (keys proxies)) :=
    sortStrings_sorted _
  have hmem : ∀ k ∈ sortStrings (keys proxies), k ∈ keys proxies :=
    fun k hk => hperm.subset hk
  have hents : List.Perm
      ((sortStrings (keys proxies)).filterMap
        (fun k => (get? proxies k).map (fun v => (k, v)))) proxies := by
    have h1 := List.Perm.filterMap
      (fun k => (get? proxies k).map (fun v => (k, v))) hperm
    rwa [filterMap_keys_self proxies hnd] at h1
  have hkeys := keys_filterMap_get? proxies (sortStrings (keys proxies)) hmem
  have hlt : List.Sorted (fun a b : String => a < b) (sortStrings (keys proxies)) :=
    hsorted.lt_of_le (hperm.nodup_iff.2 hnd)
  have hrows : (run (list t c) s).out.filter isRow
      = List.map (fun e => rowOf e.2) ((sortStrings (keys proxies)).filterMap
          (fun k => (get? proxies k).map (fun v => (k, v)))) := by
    rw [run_out, list_apply t c s s1 proxies hfetch]
    by_cases hz : (sortStrings (keys proxies)).length = 0
    · have hnil : sortStrings (keys proxies) = [] := List.length_eq_zero.1 hz
      simp only [hz, if_true, hnil, List.filterMap_nil, List.map_nil]
      rfl
    · simp only [hz, if_false, List.filter_append, filter_isRow_rows]
      simp [isRow, List.filter_cons]
  refine ⟨_, hents, by rw [hkeys]; exact hlt, hrows, ?_, ?_⟩
  · rw [hrows, List.length_map, hents.length_eq]
  · rw [run_exit, list_apply t c s s1 proxies hfetch]
/-- Witness of `list_rows_sorted` on the example service, whose mapping lists
`redis` before `mysql`. -/
theorem list_rows_sorted_witness :
    (keys [("redis", demoProxy), ("mysql", { demoProxy with name := "mysql" })]).Nodup ∧
    (run (list demoClient (addContext "" false false)) 0).out
      = [Out.listHeader, Out.listRule,
         Out.proxyRow "127.0.0.1:26379" "127.0.0.1:6379" "mysql" true "None",
         Out.proxyRow "127.0.0.1:26379" "127.0.0.1:6379" "redis" true "None",
         Out.newline, Out.hint Hint.inspectProxy] ∧
    ∃ ents : GoMap Proxy,
      List.Perm ents [("redis", demoProxy), ("mysql", { demoProxy with name := "mysql" })] ∧
      List.Sorted (fun a b => a < b) (keys ents) ∧
      (run (list demoClient (addContext "" false false)) 0).out.filter isRow
        = ents.map (fun e => rowOf e.2) ∧
      ((run (list demoClient (addContext "" false false)) 0).out.filter isRow).length
        = ([("redis", demoProxy), ("mysql", { demoProxy with name := "mysql" })]
            : GoMap Proxy).length ∧
      (run (list demoClient (addContext "" false false)) 0).exit = Exit.ok :=
  ⟨by decide, by decide,
    list_rows_sorted demoClient (addContext "" false false) 0 1 _ (by decide) rfl⟩

/-! ## The listing of `inspect` -/

theorem listProps_apply {σ : Type} (toxic : Toxic) (w : World σ) :
    listProps toxic w = Step.next ()
      ⟨w.st, w.calls, w.out ++ toxic.map (fun e => Out.toxicProp e.1 e.2)⟩ := by
  induction toxic generalizing w with
  | nil => simp [listProps, pure_apply]
  | cons e rest ih =>
    obtain ⟨property, value⟩ := e
    simp [listProps, bind_apply, print_apply, ih]

theorem listToxicsLoop_apply {σ : Type} (stream : String) (toxics : Toxics)
    (hstr : ∀ e ∈ toxics, hasStream e.2 = true) (w : World σ) :
    listToxicsLoop stream toxics w = Step.next ()
      ⟨w.st, w.calls, w.out ++ toxicLines stream toxics⟩ := by
  induction toxics generalizing w with
  | nil => simp [listToxicsLoop, toxicLines, pure_apply]
  | cons e rest ih =>
    obtain ⟨name, toxic⟩ := e
    have hrest := fun w => ih (fun e he => hstr e (List.mem_cons_of_mem _ he)) w
    obtain ⟨s, hs⟩ := (hasStream_iff toxic).1 (hstr (name, toxic) (List.mem_cons_self _ _))
    by_cases he : s = stream
    · subst he
      simp [listToxicsLoop, toxicLines, hs, assertString, streamIs, bind_apply, print_apply,
        listProps_apply, hrest]
    · simp [listToxicsLoop, toxicLines, hs, assertString, streamIs, he, hrest]

theorem listToxics_apply {σ : Type} (toxics : Toxics) (stream : String)
    (hstr : ∀ e ∈ toxics, hasStream e.2 = true) (w : World σ) :
    listToxics toxics stream w = Step.next ()
      ⟨w.st, w.calls, w.out ++
        (if toxics.length = 0 then [Out.noStreamToxics stream]
         else Out.toxicsHeader stream :: toxicLines stream toxics)⟩ := by
  unfold listToxics
  by_cases hz : toxics.length = 0
  · simp only [hz, if_true, print_apply]
  · simp only [hz, if_false, bind_apply, print_apply, listToxicsLoop_apply stream toxics hstr]
    simp
theorem mem_keys_filter (m : Toxics) (hnd : (keys m).Nodup) (p : String × Toxic → Bool)
    (name : String) :
    name ∈ keys (m.filter p) ↔ ∃ toxic, get? m name = some toxic ∧ p (name, toxic) = true := by
  constructor
  · intro hmem
    obtain ⟨e, he, rfl⟩ := List.mem_map.1 hmem
    rw [List.mem_filter] at he
    exact ⟨e.2, (get?_eq_some_iff m hnd e.1 e.2).2 he.1, he.2⟩
  · rintro ⟨toxic, hget, hp⟩
    have hmem : (name, toxic) ∈ m.filter p :=
      List.mem_filter.2 ⟨(get?_eq_some_iff m hnd name toxic).1 hget, hp⟩
    exact List.mem_map_of_mem Prod.fst hmem

theorem filter_eq_of_nodup (l : List String) (hnd : l.Nodup) (name : String) :
    l.filter (fun n => decide (n = name)) = if name ∈ l then [name] else [] := by
  induction l with
  | nil => simp
  | cons a rest ih =>
    rw [List.nodup_cons] at hnd
    by_cases h : a = name
    · subst h
      have hnot : ∀ n ∈ rest, ¬ (n = a) := fun n hn e => hnd.1 (e ▸ hn)
      have hnil : rest.filter (fun n => decide (n = a)) = [] := by
        rw [List.filter_eq_nil_iff]
        intro n hn
        simpa using hnot n hn
      simp [List.filter_cons, hnil]
    · have h2 : ¬ (name = a) := fun e => h e.symm
      simp [List.filter_cons, h, h2, ih hnd.2]

theorem namesUnder_props (cur : Option String) (toxic : Toxic) (rest : List Out) :
    namesUnder cur (toxic.map (fun e => Out.toxicProp e.1 e.2) ++ rest)
      = namesUnder cur rest := by
  induction toxic with
  | nil => rfl
  | cons e more ih => simpa [namesUnder] using ih

theorem namesUnder_toxicLines (cur : Option String) (stream : String) (m : Toxics)
    (rest : List Out) :
    namesUnder cur (toxicLines stream m ++ rest)
      = (keys (m.filter (fun e => streamIs stream e.2))).map (fun n => (cur, n))
        ++ namesUnder cur rest := by
  induction m with
  | nil => rfl
  | cons e more ih =>
    obtain ⟨name, toxic⟩ := e
    by_cases h : streamIs stream toxic = true
    · simp only [toxicLines, h, if_true, List.cons_append, List.append_assoc, namesUnder,
        namesUnder_props, List.filter_cons, keys, List.map_cons]
      simp only [keys] at ih
      rw [ih]
    · simp only [toxicLines, h, if_false, List.filter_cons, Bool.false_eq_true]
      exact ih

theorem namesUnder_listing (cur : Option String) (stream : String) (m : Toxics)
    (rest : List Out) :
    namesUnder cur ((if m.length = 0 then [Out.noStreamToxics stream]
        else Out.toxicsHeader stream :: toxicLines stream m) ++ rest)
      = (keys (m.filter (fun e => streamIs stream e.2))).map (fun n => (some stream, n))
        ++ namesUnder (if m.length = 0 then none else some stream) rest := by
  by_cases hz : m.length = 0
  · have hm : m = [] := List.length_eq_zero.1 hz
    subst hm
    simp [namesUnder, keys]
  · simp only [hz, if_false, List.cons_append, namesUnder, namesUnder_toxicLines]

theorem inspect_apply {σ : Type} (t : Client σ) (c : Context) (s s1 : σ) (proxy : Proxy)
    (hname : c.first ≠ "") (hfetch : t.proxy c.first s = (.ok proxy, s1))
    (hne : proxy.activeToxics ≠ []) (hnd : (keys proxy.activeToxics).Nodup)
    (hstr : ∀ e ∈ proxy.activeToxics, hasStream e.2 = true) :
    inspect t c ⟨s, [], []⟩ = Step.next ()
      ⟨s1, [Call.proxy c.first],
        [Out.proxyName proxy.enabled proxy.name, Out.proxyAddr proxy.listen proxy.upstream] ++
        ((if (proxy.activeToxics.filter (fun e => streamIs "upstream" e.2)).length = 0
            then [Out.noStreamToxics "upstream"]
            else Out.toxicsHeader "upstream" :: toxicLines "upstream"
              (proxy.activeToxics.filter (fun e => streamIs "upstream" e.2))) ++
         (Out.newline ::
          ((if (proxy.activeToxics.filter (fun e => !streamIs "upstream" e.2)).length = 0
            then [Out.noStreamToxics "downstream"]
            else Out.toxicsHeader "downstream" :: toxicLines "downstream"
              (proxy.activeToxics.filter (fun e => !streamIs "upstream" e.2))) ++
           [Out.newline, Out.hint Hint.addToxic])))⟩ := by
  have hlen : ¬ (proxy.activeToxics.length = 0) := fun h => hne (List.length_eq_zero.1 h)
  have hU : ∀ e ∈ proxy.activeToxics.filter (fun e => streamIs "upstream" e.2),
      hasStream e.2 = true := fun e he => hstr e (List.mem_filter.1 he).1
  have hD : ∀ e ∈ proxy.activeToxics.filter (fun e => !streamIs "upstream" e.2),
      hasStream e.2 = true := fun e he => hstr e (List.mem_filter.1 he).1
  simp only [inspect, hname, if_false, bind_apply, request_apply, hfetch, print_apply, hlen,
    splitToxics_eq_filter proxy.activeToxics hstr hnd, listToxics_apply _ _ hU,
    listToxics_apply _ _ hD]
  simp
theorem filter_names (cur : Option String) (l : List String) (hnd : l.Nodup) (name : String) :
    (l.map (fun n => (cur, n))).filter (fun e => decide (e.2 = name))
      = if name ∈ l then [(cur, name)] else [] := by
  rw [List.filter_map]
  have h : ((fun e : Option String × String => decide (e.2 = name)) ∘ fun n => (cur, n))
      = fun n => decide (n = name) := rfl
  rw [h, filter_eq_of_nodup l hnd name]
  split <;> rfl

theorem namesUnder_inspect {σ : Type} (t : Client σ) (c : Context) (s s1 : σ)
    (proxy : Proxy) (hname : c.first ≠ "") (hfetch : t.proxy c.first s = (.ok proxy, s1))
    (hne : proxy.activeToxics ≠ []) (hnd : (keys proxy.activeToxics).Nodup)
    (hstr : ∀ e ∈ proxy.activeToxics, hasStream e.2 = true) :
    namesUnder none (run (inspect t c) s).out
      = (keys (proxy.activeToxics.filter (fun e => streamIs "upstream" e.2))).map
          (fun n => (some "upstream", n))
        ++ (keys (proxy.activeToxics.filter
              (fun e => streamIs "downstream" e.2 && !streamIs "upstream" e.2))).map
          (fun n => (some "downstream", n)) := by
  have hnl : ∀ (cur : Option String) (rest : List Out),
      namesUnder cur (Out.newline :: rest) = namesUnder cur rest := fun _ _ => rfl
  have hend : ∀ cur : Option String,
      namesUnder cur [Out.newline, Out.hint Hint.addToxic] = [] := fun _ => rfl
  rw [run_out, inspect_apply t c s s1 proxy hname hfetch hne hnd hstr]
  simp only [List.cons_append, List.nil_append, namesUnder]
  rw [show ∀ x : List Out, ([] : List Out).append x = x from fun _ => rfl,
    namesUnder_listing, hnl, namesUnder_listing, hend, List.filter_filter,
    List.filter_filter]
  simp

/-- C10: in `inspect`, for a non-empty toxic mapping (distinct names) whose
`stream` values are all strings, a toxic whose stream is `upstream` or
`downstream` is printed exactly once, under the heading of its own stream, and
a toxic with any other stream is not printed at all, although the split has
put it in the downstream set. -/
theorem inspect_prints_known_streams {σ : Type} (t : Client σ) (c : Context) (s s1 : σ)
    (proxy : Proxy) (hname : c.first ≠ "") (hfetch : t.proxy c.first s = (.ok proxy, s1))
    (hne : proxy.activeToxics ≠ []) (hnd : (keys proxy.activeToxics).Nodup)
    (hstr : ∀ e ∈ proxy.activeToxics, ∃ v, get? e.2 "stream" = some (Value.str v))
    (name : String) (toxic : Toxic) (stream : String)
    (hget : get? proxy.activeToxics name = some toxic)
    (hstream : get? toxic "stream" = some (Value.str stream)) :
    (namesUnder none (run (inspect t c) s).out).filter (fun e => decide (e.2 = name))
      = (if stream = "upstream" ∨ stream = "downstream" then [(some stream, name)] else []) ∧
    (stream ≠ "upstream" → ∃ up down,
      splitToxics proxy.activeToxics = some (up, down) ∧ get? down name = some toxic) ∧
    (run (inspect t c) s).exit = Exit.ok := by
  have hstr2 : ∀ e ∈ proxy.activeToxics, hasStream e.2 = true :=
    fun e he => (hasStream_iff e.2).2 (hstr e he)
  have hisU : streamIs "upstream" toxic = decide (stream = "upstream") := by
    simp [streamIs, hstream, eq_comm]
  have hisD : streamIs "downstream" toxic = decide (stream = "downstream") := by
    simp [streamIs, hstream, eq_comm]
  have hmemU : name ∈ keys (proxy.activeToxics.filter (fun e => streamIs "upstream" e.2))
      ↔ stream = "upstream" := by
    rw [mem_keys_filter _ hnd]
    constructor
    · rintro ⟨t2, h2, hp⟩
      rw [hget] at h2
      cases h2
      simpa [hisU] using hp
    · intro h
      exact ⟨toxic, hget, by simp [hisU, h]⟩
  have hmemD : name ∈ keys (proxy.activeToxics.filter
        (fun e => streamIs "downstream" e.2 && !streamIs "upstream" e.2))
      ↔ stream = "downstream" := by
    rw [mem_keys_filter _ hnd]
    constructor
    · rintro ⟨t2, h2, hp⟩
      rw [hget] at h2
      cases h2
      simp only [hisU, hisD, Bool.and_eq_true, decide_eq_true_eq] at hp
      exact hp.1
    · intro h
      refine ⟨toxic, hget, ?_⟩
      simp only [hisU, hisD, h]
      decide
  refine ⟨?_, ?_, ?_⟩
  · rw [namesUnder_inspect t c s s1 proxy hname hfetch hne hnd hstr2, List.filter_append,
      filter_names _ _ (nodup_keys_filter _ _ hnd), filter_names _ _ (nodup_keys_filter _ _ hnd)]
    by_cases hu : stream = "upstream"
    · have hd : ¬ (stream = "downstream") := by rw [hu]; decide
      rw [if_pos (hmemU.2 hu), if_neg (fun h => hd (hmemD.1 h)), if_pos (Or.inl hu), hu]
      rfl
    · by_cases hd : stream = "downstream"
      · rw [if_neg (fun h => hu (hmemU.1 h)), if_pos (hmemD.2 hd), if_pos (Or.inr hd), hd]
        rfl
      · rw [if_neg (fun h => hu (hmemU.1 h)), if_neg (fun h => hd (hmemD.1 h)),
          if_neg (fun h => h.elim hu hd)]
        rfl
  · intro hu
    refine ⟨_, _, splitToxics_eq_filter proxy.activeToxics hstr2 hnd, ?_⟩
    rw [get?_eq_some_iff _ (nodup_keys_filter _ _ hnd), List.mem_filter]
    refine ⟨(get?_eq_some_iff _ hnd name toxic).1 hget, ?_⟩
    simp [hisU, hu]
  · rw [run_exit, inspect_apply t c s s1 proxy hname hfetch hne hnd hstr2]

/-- Witness of `inspect_prints_known_streams` on the example proxy: the toxic
`c`, whose stream is `sideways`, is in the downstream set and is not printed;
the whole output is shown. -/
theorem inspect_prints_known_streams_witness :
    (run (inspect toxicClient (addContext "" false false)) 0).out
      = [Out.proxyName true "redis", Out.proxyAddr "127.0.0.1:26379" "127.0.0.1:6379",
         Out.toxicsHeader "upstream", Out.toxicName "a",
         Out.toxicProp "stream" (Value.str "upstream"), Out.newline, Out.newline,
         Out.toxicsHeader "downstream", Out.toxicName "b",
         Out.toxicProp "stream" (Value.str "downstream"), Out.newline,
         Out.newline, Out.hint Hint.addToxic] ∧
    ((namesUnder none (run (inspect toxicClient (addContext "" false false)) 0).out).filter
        (fun e => decide (e.2 = "c"))
      = (if "sideways" = "upstream" ∨ "sideways" = "downstream"
          then [(some "sideways", "c")] else []) ∧
    ("sideways" ≠ "upstream" → ∃ up down,
      splitToxics toxicProxy.activeToxics = some (up, down) ∧
        get? down "c" = some [("stream", Value.str "sideways")]) ∧
    (run (inspect toxicClient (addContext "" false false)) 0).exit = Exit.ok) :=
  ⟨by decide,
    inspect_prints_known_streams toxicClient (addContext "" false false) 0 1 toxicProxy
      (by decide) rfl (by decide) (by decide)
      (by
        intro e he
        simp only [toxicProxy, List.mem_cons, List.mem_singleton, List.not_mem_nil,
          or_false] at he
        rcases he with rfl | rfl | rfl
        · exact ⟨"upstream", rfl⟩
        · exact ⟨"downstream", rfl⟩
        · exact ⟨"sideways", rfl⟩)
      "c" [("stream", Value.str "sideways")] "sideways" rfl rfl⟩

end Toxiproxy
